import Mathlib

/-!
Verification of the viaduct CI/release-automation scripts.

This file gives a shallow embedding, in Lean 4, of the three Python scripts
of the repository:

* `.github/scripts/generate_changelog.py` (changelog generator),
* `.github/scripts/demoapps_to_external_push.py` (demo-app publisher),
* `docs/plugins/code_snippets.py` (doc snippet macros),

and proves or refutes the frozen claims about them.

Modelling conventions:

* Python strings are modelled by `String` / `List Char`.  Character classes
  (`\s`, `\w`, `[a-f0-9]`, `str.lower`, `str.strip`, `str.title`) are modelled
  at ASCII granularity, which covers the commit messages, branch names and
  file paths the scripts operate on.
* The concrete regular expressions of the scripts are small (a literal with
  character-class runs around it), so each one is embedded directly as an
  executable matcher on `List Char`, together with a generic leftmost,
  non-overlapping substitution engine `reSubAll` mirroring `re.sub`.
* Effectful code (the publisher) is modelled by explicit state passing over a
  `PubState` record capturing the files and subprocess results the script
  touches; fallible snippet macros return `Except`.
-/

/-! ## ASCII character classes used by the scripts -/

/-- ASCII model of the Python regex class `\s` (and of the whitespace stripped
by `str.strip`). -/
def isPySpace (c : Char) : Bool :=
  c = ' ' || c = '\t' || c = '\n' || c = '\x0b' || c = '\x0c' || c = '\r'

/-- ASCII model of the Python regex class `\w`. -/
def isPyWord (c : Char) : Bool :=
  c.isAlpha || c.isDigit || c = '_'

/-- Model of the Python regex class `[a-f0-9]` under `re.IGNORECASE`. -/
def isHexCI (c : Char) : Bool :=
  ('a' ≤ c && c ≤ 'f') || ('A' ≤ c && c ≤ 'F') || c.isDigit

theorem isPySpace_cases {c : Char} (h : isPySpace c = true) :
    c = ' ' ∨ c = '\t' ∨ c = '\n' ∨ c = '\x0b' ∨ c = '\x0c' ∨ c = '\r' := by
  simp only [isPySpace, Bool.or_eq_true, decide_eq_true_eq] at h
  tauto

theorem isPySpace_not_word {c : Char} (h : isPyWord c = true) : isPySpace c = false := by
  by_contra hc
  have hs : isPySpace c = true := by revert hc; cases isPySpace c <;> simp
  rcases isPySpace_cases hs with rfl | rfl | rfl | rfl | rfl | rfl <;> revert h <;> decide

theorem isPySpace_not_hex {c : Char} (h : isHexCI c = true) : isPySpace c = false := by
  by_contra hc
  have hs : isPySpace c = true := by revert hc; cases isPySpace c <;> simp
  rcases isPySpace_cases hs with rfl | rfl | rfl | rfl | rfl | rfl <;> revert h <;> decide

/-! ## Python string primitives -/

/-- Model of Python `str.lower` on character lists (ASCII). -/
def pyLowerData (l : List Char) : List Char := l.map Char.toLower

/-- Model of Python `str.lower`. -/
def pyLower (s : String) : String := ⟨pyLowerData s.data⟩

/-- Model of Python `str.strip()` on character lists (ASCII whitespace). -/
def pyStripData (l : List Char) : List Char :=
  ((l.dropWhile isPySpace).reverse.dropWhile isPySpace).reverse

/-- Model of Python `str.strip()`. -/
def pyStrip (s : String) : String := ⟨pyStripData s.data⟩

/-- Model of Python `str.rstrip()`. -/
def pyRstrip (s : String) : String := ⟨(s.data.reverse.dropWhile isPySpace).reverse⟩

/-- Model of Python `str.split(sep)` for a one-character separator: splits on
every occurrence and keeps empty pieces (`"".split(c) = [""]`). -/
def pySplitChar (sep : Char) : List Char → List (List Char)
  | [] => [[]]
  | c :: cs =>
    match pySplitChar sep cs with
    | [] => [[c]]
    | h :: t => if c = sep then [] :: h :: t else (c :: h) :: t

/-- Model of Python `str.split(sep)` on `String`s. -/
def pySplit (sep : Char) (s : String) : List String :=
  (pySplitChar sep s.data).map List.asString

/-- Model of Python `str.title()` (ASCII): a letter is uppercased when the
previous character is not a letter, and lowercased otherwise. -/
def pyTitleGo : Bool → List Char → List Char
  | _, [] => []
  | prev, c :: cs =>
    (if c.isAlpha then (if prev then c.toLower else c.toUpper) else c) ::
      pyTitleGo c.isAlpha cs

/-- Model of Python `str.title()`. -/
def pyTitle (s : String) : String := ⟨pyTitleGo false s.data⟩

/-! ## Generic leftmost empty/replacement substitution engine

`reSubAll m repl l` mirrors Python `re.sub(pattern, repl, l)` for a pattern
embedded as a matcher `m`: `m l` returns, when the pattern matches at the head
of `l`, the remainder of `l` after the match.  The engine scans left to right,
replaces each leftmost non-overlapping match by `repl` and resumes after it. -/

/-- Fuelled substitution engine; one unit of fuel is spent per position
examined, so fuel `l.length` always suffices. -/
def reSubF (m : List Char → Option (List Char)) (repl : List Char) :
    Nat → List Char → List Char
  | 0, l => l
  | _ + 1, [] => []
  | f + 1, c :: cs =>
    match m (c :: cs) with
    | some rest => repl ++ reSubF m repl f rest
    | none => c :: reSubF m repl f cs

/-- Model of `re.sub(pattern, repl, s)` given a head matcher for the pattern. -/
def reSubAll (m : List Char → Option (List Char)) (repl : List Char)
    (l : List Char) : List Char :=
  reSubF m repl l.length l

/-- A matcher shrinks when every match consumes at least one character. -/
def MatcherShrinks (m : List Char → Option (List Char)) : Prop :=
  ∀ l r, m l = some r → r.length < l.length

theorem reSubF_fuel {m : List Char → Option (List Char)} {repl : List Char}
    (hm : MatcherShrinks m) :
    ∀ f g l, l.length ≤ f → l.length ≤ g → reSubF m repl f l = reSubF m repl g l := by
  intro f
  induction f with
  | zero =>
    intro g l hf _
    have : l = [] := List.length_eq_zero.mp (Nat.le_zero.mp hf)
    subst this
    cases g <;> rfl
  | succ f ih =>
    intro g l hf hg
    cases l with
    | nil => cases g <;> rfl
    | cons c cs =>
      cases g with
      | zero => exact absurd hg (by simp)
      | succ g' =>
        cases hmc : m (c :: cs) with
        | some rest =>
          have hlt := hm _ _ hmc
          have h1 : rest.length ≤ f := by
            simp only [List.length_cons] at hlt hf
            omega
          have h2 : rest.length ≤ g' := by
            simp only [List.length_cons] at hlt hg
            omega
          simp only [reSubF, hmc]
          rw [ih g' rest h1 h2]
        | none =>
          have h1 : cs.length ≤ f := by
            simp only [List.length_cons] at hf
            omega
          have h2 : cs.length ≤ g' := by
            simp only [List.length_cons] at hg
            omega
          simp only [reSubF, hmc]
          rw [ih g' cs h1 h2]

/-- One scanning step on a match-free head. -/
theorem reSubAll_cons_none {m : List Char → Option (List Char)} {repl : List Char}
    {c : Char} {cs : List Char} (h : m (c :: cs) = none) :
    reSubAll m repl (c :: cs) = c :: reSubAll m repl cs := by
  simp only [reSubAll, List.length_cons, reSubF, h]

/-- If the matcher matches nowhere in `l` the substitution is the identity
(for any amount of fuel). -/
theorem reSubF_id {m : List Char → Option (List Char)} {repl : List Char}
    (f : Nat) :
    ∀ l, (∀ i, m (l.drop i) = none) → reSubF m repl f l = l := by
  induction f with
  | zero => intro l _; rfl
  | succ f ih =>
    intro l hnone
    cases l with
    | nil => rfl
    | cons c cs =>
      have h0 := hnone 0
      simp only [List.drop_zero] at h0
      simp only [reSubF, h0]
      rw [ih cs (fun i => hnone (i + 1))]

/-- `re.sub` is the identity on match-free strings. -/
theorem reSubAll_id {m : List Char → Option (List Char)} {repl : List Char}
    (l : List Char) (hnone : ∀ i, m (l.drop i) = none) :
    reSubAll m repl l = l :=
  reSubF_id _ l hnone

/-- The scan passes over a match-free region untouched. -/
theorem reSubAll_append {m : List Char → Option (List Char)} {repl : List Char}
    (a b : List Char) (hnone : ∀ i, i < a.length → m ((a ++ b).drop i) = none) :
    reSubAll m repl (a ++ b) = a ++ reSubAll m repl b := by
  induction a with
  | nil => simp [reSubAll]
  | cons c cs ih =>
    have h0 := hnone 0 (by simp)
    simp only [List.drop_zero, List.cons_append] at h0
    rw [List.cons_append, reSubAll_cons_none h0]
    rw [ih (fun i hi => by
      have := hnone (i + 1) (by simpa using Nat.succ_lt_succ hi)
      simpa using this)]
    simp

/-- A match at the head is replaced and the scan resumes after it. -/
theorem reSubAll_match {m : List Char → Option (List Char)} {repl : List Char}
    (hm : MatcherShrinks m) (l r : List Char) (h : m l = some r) :
    reSubAll m repl l = repl ++ reSubAll m repl r := by
  cases l with
  | nil =>
    have := hm _ _ h
    simp at this
  | cons c cs =>
    have hlt := hm _ _ h
    simp only [reSubAll, List.length_cons, reSubF, h]
    congr 1
    exact reSubF_fuel hm cs.length r.length r
      (by simp only [List.length_cons] at hlt; omega) (le_refl _)

/-! ## takeWhile / dropWhile helpers -/

theorem takeWhile_append_all {p : Char → Bool} {xs : List Char} (ys : List Char)
    (hxs : ∀ c ∈ xs, p c = true) :
    (xs ++ ys).takeWhile p = xs ++ ys.takeWhile p := by
  induction xs with
  | nil => simp
  | cons c cs ih =>
    have hc := hxs c (by simp)
    simp [List.cons_append, List.takeWhile_cons, hc,
      ih (fun x hx => hxs x (by simp [hx]))]

theorem dropWhile_append_all {p : Char → Bool} {xs : List Char} (ys : List Char)
    (hxs : ∀ c ∈ xs, p c = true) :
    (xs ++ ys).dropWhile p = ys.dropWhile p := by
  induction xs with
  | nil => simp
  | cons c cs ih =>
    have hc := hxs c (by simp)
    simp [List.cons_append, List.dropWhile_cons, hc,
      ih (fun x hx => hxs x (by simp [hx]))]

theorem takeWhile_head_false {p : Char → Bool} {ys : List Char}
    (h : ∀ c, ys.head? = some c → p c = false) :
    ys.takeWhile p = [] := by
  cases ys with
  | nil => rfl
  | cons c cs =>
    have := h c rfl
    simp [List.takeWhile_cons, this]

theorem dropWhile_head_false {p : Char → Bool} {ys : List Char}
    (h : ∀ c, ys.head? = some c → p c = false) :
    ys.dropWhile p = ys := by
  cases ys with
  | nil => rfl
  | cons c cs =>
    have := h c rfl
    simp [List.dropWhile_cons, this]

/-! ## Literal search -/

/-- First occurrence search: returns the suffix just after the first occurrence
of `pat` in `l`, if any (mirrors the scanning done by `re.search` for a literal
pattern). -/
def findFirstFrom (pat : List Char) : List Char → Option (List Char)
  | [] => if pat.isEmpty then some [] else none
  | c :: cs =>
    if pat.isPrefixOf (c :: cs) then some ((c :: cs).drop pat.length)
    else findFirstFrom pat cs

theorem findFirstFrom_none {pat : List Char} :
    ∀ {l : List Char}, findFirstFrom pat l = none →
      ∀ i, ¬ pat.isPrefixOf (l.drop i) := by
  intro l
  induction l with
  | nil =>
    intro h i
    simp only [findFirstFrom] at h
    intro hp
    rw [List.drop_nil] at hp
    have : pat = [] := List.prefix_nil.mp (List.isPrefixOf_iff_prefix.mp hp)
    simp [this] at h
  | cons c cs ih =>
    intro h i
    simp only [findFirstFrom] at h
    by_cases hp : pat.isPrefixOf (c :: cs)
    · simp [hp] at h
    · simp only [hp, if_false] at h
      cases i with
      | zero => simpa using hp
      | succ i => exact ih h i

theorem findFirstFrom_length {pat : List Char} :
    ∀ {l r : List Char}, findFirstFrom pat l = some r → r.length ≤ l.length := by
  intro l
  induction l with
  | nil =>
    intro r h
    simp only [findFirstFrom] at h
    by_cases hp : pat.isEmpty
    · simp [hp] at h
      simp [← h]
    · simp [hp] at h
  | cons c cs ih =>
    intro r h
    simp only [findFirstFrom] at h
    by_cases hp : pat.isPrefixOf (c :: cs)
    · simp only [hp, if_true, Option.some.injEq] at h
      subst h
      simp
    · simp only [hp, if_false] at h
      exact le_trans (ih h) (by simp)

theorem isPrefixOf_head {pat l : List Char} (h : pat.isPrefixOf l = true)
    (hne : pat ≠ []) : l.head? = pat.head? := by
  cases pat with
  | nil => exact absurd rfl hne
  | cons p ps =>
    cases l with
    | nil => simp [List.isPrefixOf] at h
    | cons c cs =>
      simp only [List.isPrefixOf, Bool.and_eq_true, beq_iff_eq] at h
      simp [h.1]

/-- Compute `findFirstFrom` when the first occurrence of `pat` is at the end
of a region whose characters all differ from the head of `pat`. -/
theorem findFirstFrom_through {pat : List Char} (hne : pat ≠ []) :
    ∀ (xs rest : List Char), (∀ c ∈ xs, (pat.head?.any fun h => c ≠ h) = true) →
      findFirstFrom pat (xs ++ pat ++ rest) = some rest := by
  intro xs
  induction xs with
  | nil =>
    intro rest _
    cases pat with
    | nil => exact absurd rfl hne
    | cons p ps =>
      have hpre : (p :: ps).isPrefixOf (p :: (ps ++ rest)) = true := by
        rw [← List.cons_append]
        simp [List.isPrefixOf_iff_prefix]
      simp only [List.nil_append, List.cons_append, findFirstFrom, List.append_eq,
        hpre, if_true]
      rw [← List.cons_append, List.drop_left]
  | cons x xs ih =>
    intro rest hxs
    have hx : (pat.head?.any fun h => x ≠ h) = true := hxs x (by simp)
    have hnp : pat.isPrefixOf (x :: (xs ++ pat ++ rest)) = false := by
      cases hp : pat.isPrefixOf (x :: (xs ++ pat ++ rest)) with
      | false => rfl
      | true =>
        exfalso
        have hh := isPrefixOf_head hp hne
        cases pat with
        | nil => exact hne rfl
        | cons p ps =>
          simp only [List.head?_cons, Option.some.injEq] at hh
          simp only [List.head?_cons, Option.any_some] at hx
          rw [hh] at hx
          simp at hx
    simp only [List.cons_append, findFirstFrom, List.append_eq, hnp,
      Bool.false_eq_true, if_false]
    exact ih rest (fun c hc => hxs c (by simp [hc]))

/-! ## Case-insensitive literal matcher -/

/-- Match the (lower-case) literal `lit` case-insensitively at the head of
`l`; returns the remainder of `l` after the literal. -/
def matchLitCI : List Char → List Char → Option (List Char)
  | [], l => some l
  | _ :: _, [] => none
  | p :: ps, c :: cs => if c.toLower = p then matchLitCI ps cs else none

theorem matchLitCI_length :
    ∀ {lit l r : List Char}, matchLitCI lit l = some r →
      r.length + lit.length = l.length := by
  intro lit
  induction lit with
  | nil =>
    intro l r h
    simp only [matchLitCI, Option.some.injEq] at h
    simp [h]
  | cons p ps ih =>
    intro l r h
    cases l with
    | nil => simp [matchLitCI] at h
    | cons c cs =>
      simp only [matchLitCI] at h
      by_cases hc : c.toLower = p
      · simp only [hc, if_true] at h
        have := ih h
        simp only [List.length_cons]
        omega
      · simp [hc] at h

theorem matchLitCI_isPrefix :
    ∀ {lit l r : List Char}, matchLitCI lit l = some r →
      lit.isPrefixOf (pyLowerData l) = true := by
  intro lit
  induction lit with
  | nil =>
    intro l r _
    simp [List.isPrefixOf]
  | cons p ps ih =>
    intro l r h
    cases l with
    | nil => simp [matchLitCI] at h
    | cons c cs =>
      simp only [matchLitCI] at h
      by_cases hc : c.toLower = p
      · simp only [hc, if_true] at h
        have hih : ps <+: List.map Char.toLower cs := by
          have h2 := List.isPrefixOf_iff_prefix.mp (ih h)
          simpa [pyLowerData] using h2
        rw [List.isPrefixOf_iff_prefix]
        simp only [pyLowerData, List.map_cons, hc]
        obtain ⟨t, ht⟩ := hih
        exact ⟨t, by rw [List.cons_append, ht]⟩
      · simp [hc] at h

theorem matchLitCI_append :
    ∀ (lit pre rest : List Char), pyLowerData pre = lit →
      matchLitCI lit (pre ++ rest) = some rest := by
  intro lit
  induction lit with
  | nil =>
    intro pre rest h
    have : pre = [] := by
      simpa [pyLowerData] using congrArg List.length h
    simp [this, matchLitCI]
  | cons p ps ih =>
    intro pre rest h
    cases pre with
    | nil => simp [pyLowerData] at h
    | cons c cs =>
      simp only [pyLowerData, List.map_cons, List.cons.injEq] at h
      simp only [List.cons_append, matchLitCI, h.1, if_true]
      exact ih cs rest h.2

/-! ## Embedding of `.github/scripts/generate_changelog.py` -/

/-- Bot accounts filtered from authorship (`BOT_USERNAMES`). -/
def BOT_USERNAMES : List String := ["noreply", "no-reply", "github-actions", "viaductbot"]

/-- Lower-cased literal of the first metadata pattern
`\s+Github-Change-Id:\s+\w+` (matched under `re.IGNORECASE`). -/
def changeIdLit : List Char := "github-change-id:".data

/-- Lower-cased literal of the second metadata pattern
`\s+GitOrigin-RevId:\s+[a-f0-9]+` (matched under `re.IGNORECASE`). -/
def revIdLit : List Char := "gitorigin-revid:".data

/-- Head matcher for a metadata-trailer pattern `\s+LIT\s+CLS+` (case
insensitive in the literal): one or more whitespace characters, the literal,
one or more whitespace characters, then a maximal non-empty run of `cls`
characters.  Since the literal starts with a non-space letter and `cls` never
accepts whitespace, the greedy runs need no backtracking. -/
def matchTrailer (lit : List Char) (cls : Char → Bool) (l : List Char) :
    Option (List Char) :=
  let ws := l.takeWhile isPySpace
  if ws.isEmpty then none
  else
    match matchLitCI lit (l.dropWhile isPySpace) with
    | none => none
    | some rest2 =>
      let ws2 := rest2.takeWhile isPySpace
      if ws2.isEmpty then none
      else
        let rest3 := rest2.dropWhile isPySpace
        let v := rest3.takeWhile cls
        if v.isEmpty then none else some (rest3.dropWhile cls)

/-- Matcher for `METADATA_PATTERNS[0]`. -/
def metaMatcher1 : List Char → Option (List Char) := matchTrailer changeIdLit isPyWord

/-- Matcher for `METADATA_PATTERNS[1]`. -/
def metaMatcher2 : List Char → Option (List Char) := matchTrailer revIdLit isHexCI

/-- `clean_commit_message`: apply `re.sub(pat, '', msg, flags=IGNORECASE)` for
each metadata pattern in order, then `str.strip()`. -/
def clean_commit_message (message : String) : String :=
  ⟨pyStripData (reSubAll metaMatcher2 [] (reSubAll metaMatcher1 [] message.data))⟩

/-- Head matcher for the pattern `\(AIRBNB\)` under `re.IGNORECASE`. -/
def airbnbMatcher (l : List Char) : Option (List Char) :=
  matchLitCI "(airbnb)".data l

/-- `replace_airbnb_marker`: substitute `(AIRBNB)` (case-insensitively) by
`(sha)`. -/
def replace_airbnb_marker (message sha : String) : String :=
  ⟨reSubAll airbnbMatcher ("(" ++ sha ++ ")").data message.data⟩

/-- `should_include_commit`: true unless the message starts with `ignore:`
after lower-casing. -/
def should_include_commit (message : String) : Bool :=
  !("ignore:".data.isPrefixOf (pyLowerData message.data))

/-- `extract_username_from_email`: the regex `^([^@]+)@` anchored at the start
captures the non-empty run of non-`@` characters before the first `@`; the
result is `@local` unless the local part is a bot name. -/
def extract_username_from_email (email : String) : Option String :=
  if email = "" then none
  else
    let pre := email.data.takeWhile (fun c => c ≠ '@')
    if pre.length = 0 then none
    else if pre.length = email.data.length then none
    else if List.asString pre ∈ BOT_USERNAMES then none
    else some ("@" ++ List.asString pre)

/-- Leftmost match of the unanchored regex `<([^@]+)@`: the group captured at
the first `<` that is followed by a non-empty `@`-free run and then an `@`. -/
def coauthorMatch : List Char → Option (List Char)
  | [] => none
  | c :: cs =>
    if c = '<' then
      let grp := cs.takeWhile (fun x => x ≠ '@')
      if grp.length ≠ 0 ∧ grp.length ≠ cs.length then some grp
      else coauthorMatch cs
    else coauthorMatch cs

/-- `extract_username_from_coauthor`. -/
def extract_username_from_coauthor (author_line : String) : Option String :=
  match coauthorMatch author_line.data with
  | none => none
  | some grp =>
    if List.asString grp ∈ BOT_USERNAMES then none
    else some ("@" ++ List.asString grp)

/-- Raw commit information extracted from git log (`CommitInfo`). -/
structure CommitInfo where
  sha : String
  message : String
  body : String
  author_email : String
  co_authors_raw : String
  deriving DecidableEq, Repr

/-- `extract_authors`: primary author handle followed by one handle per
`|`-separated co-author trailer; empty pieces and bot/invalid entries are
dropped. -/
def extract_authors (commit : CommitInfo) : List String :=
  let primary :=
    match extract_username_from_email commit.author_email with
    | some u => [u]
    | none => []
  let cos :=
    if commit.co_authors_raw ≠ "" then
      (pySplit '|' commit.co_authors_raw).filterMap fun co =>
        let t := pyStrip co
        if t ≠ "" then extract_username_from_coauthor t else none
    else []
  primary ++ cos

/-- The `semantic_release.enums.LevelBump` values used by the script. -/
inductive LevelBump where
  | NO_RELEASE
  | PRERELEASE_REVISION
  | PATCH
  | MINOR
  | MAJOR
  deriving DecidableEq, Repr

/-- Abstract model of `semantic_release`'s `ParsedMessageResult` (the fields
the script reads).  The library parser itself is third-party code, so
`parse_commit` below is parameterised by an arbitrary parse function. -/
structure ParsedMessage where
  ptype : String
  scope : String
  descriptions : List String
  breaking_descriptions : List String
  bump : LevelBump
  deriving DecidableEq, Repr

/-- A processed changelog entry (`ChangelogEntry`). -/
structure ChangelogEntry where
  sha : String
  message : String
  authors : List String
  change_type : Option String
  scope : Option String
  description : String
  is_breaking : Bool
  breaking_description : Option String
  bump : LevelBump
  deriving DecidableEq, Repr

/-- `ChangelogEntry.formatted_authors`: comma-separated handles, or
`@anonymous` when the list is empty. -/
def ChangelogEntry.formatted_authors (e : ChangelogEntry) : String :=
  if e.authors ≠ [] then String.intercalate ", " e.authors else "@anonymous"

/-- `ChangelogEntry.formatted_entry`. -/
def ChangelogEntry.formatted_entry (e : ChangelogEntry) : String :=
  e.description ++ " by " ++ e.formatted_authors

/-- `parse_commit`: drop `ignore:` commits, clean the message, resolve authors,
then build the entry from the parser result (or an untyped fallback entry when
the message is not a conventional commit). -/
def parse_commit (parser : String → Option ParsedMessage) (commit : CommitInfo) :
    Option ChangelogEntry :=
  if !should_include_commit commit.message then none
  else
    let cleaned := replace_airbnb_marker (clean_commit_message commit.message) commit.sha
    let authors := extract_authors commit
    match parser (cleaned ++ "\n\n" ++ commit.body) with
    | some parsed =>
      some { sha := commit.sha, message := cleaned, authors := authors,
             change_type := some parsed.ptype, scope := some parsed.scope,
             description := parsed.descriptions.headD cleaned,
             is_breaking := !parsed.breaking_descriptions.isEmpty ||
               parsed.bump == LevelBump.MAJOR,
             breaking_description := parsed.breaking_descriptions.head?,
             bump := parsed.bump }
    | none =>
      some { sha := commit.sha, message := cleaned, authors := authors,
             change_type := none, scope := none, description := cleaned,
             is_breaking := false, breaking_description := none,
             bump := LevelBump.NO_RELEASE }

/-- `CHANGE_TYPES`: change type, sort priority, display name. -/
def CHANGE_TYPES : List (String × Nat × String) :=
  [("feat", 1, "Features"), ("fix", 2, "Bug Fixes"),
   ("perf", 3, "Performance Improvements"), ("docs", 4, "Documentation"),
   ("test", 5, "Testing"), ("refactor", 6, "Refactoring"),
   ("style", 7, "Code Style"), ("chore", 8, "Chores"),
   ("ci", 9, "Continuous Integration"), ("build", 10, "Build System")]

/-- Dictionary lookup in `CHANGE_TYPES`. -/
def changeTypesGet (t : String) : Option (Nat × String) :=
  (CHANGE_TYPES.find? (fun p => p.1 == t)).map (fun p => p.2)

/-- The sort key `CHANGE_TYPES.get(t, (99, t))[0]` used by
`generate_changelog`. -/
def typePriority (t : String) : Nat :=
  match changeTypesGet t with
  | some pr => pr.1
  | none => 99

/-- Whether a change type is in the fixed `CHANGE_TYPES` table. -/
def isKnownType (t : String) : Bool := (changeTypesGet t).isSome

/-- The grouping key of an entry (`entry.change_type` if truthy, otherwise
the `'chore'` bucket). -/
def groupKey (e : ChangelogEntry) : String :=
  match e.change_type with
  | some t => if t = "" then "chore" else t
  | none => "chore"

/-- Append an entry to its key's list, preserving key insertion order
(the behaviour of a Python insertion-ordered `defaultdict(list)`). -/
def addToGroup (g : List (String × List ChangelogEntry)) (key : String)
    (e : ChangelogEntry) : List (String × List ChangelogEntry) :=
  match g with
  | [] => [(key, [e])]
  | (k, l) :: rest =>
    if k = key then (k, l ++ [e]) :: rest else (k, l) :: addToGroup rest key e

/-- `group_entries_by_type`. -/
def group_entries_by_type (entries : List ChangelogEntry) :
    List (String × List ChangelogEntry) :=
  entries.foldl (fun g e => addToGroup g (groupKey e) e) []

/-- Dictionary lookup `grouped[t]` (with `[]` default, unused in practice). -/
def groupGet (g : List (String × List ChangelogEntry)) (t : String) :
    List ChangelogEntry :=
  match g.find? (fun p => p.1 == t) with
  | some p => p.2
  | none => []

/-- `render_section`: known types use their display name, unknown types a
titleized heading. -/
def render_section (change_type : String) (entries : List ChangelogEntry) :
    String :=
  let title :=
    match changeTypesGet change_type with
    | none => pyTitle change_type
    | some pr => pr.2
  String.intercalate "\n"
    (["## " ++ title, ""] ++ entries.map (fun e => "- " ++ e.formatted_entry) ++ [""])

/-- `render_breaking_changes` (`entry.breaking_description or
entry.description`, Python truthiness). -/
def render_breaking_changes (entries : List ChangelogEntry) : String :=
  String.intercalate "\n"
    (["## Breaking Changes", ""] ++
      entries.map (fun e =>
        let desc :=
          match e.breaking_description with
          | some d => if d = "" then e.description else d
          | none => e.description
        "- " ++ desc ++ " by " ++ e.formatted_authors) ++ [""])

/-- Stable insertion of `x` after all existing keys with priority `≤` its own
(together with the left fold below this models Python's stable `sorted`). -/
def insertByPriority (x : String) : List String → List String
  | [] => [x]
  | y :: ys =>
    if typePriority y ≤ typePriority x then y :: insertByPriority x ys
    else x :: y :: ys

/-- `sorted(grouped.keys(), key=lambda t: CHANGE_TYPES.get(t, (99, t))[0])`. -/
def sortTypesByPriority (l : List String) : List String :=
  l.foldl (fun acc x => insertByPriority x acc) []

/-- The rendering part of `generate_changelog` (everything after the commits
have been retrieved and parsed into entries). -/
def generate_changelog_core (tag2 : String) (entries : List ChangelogEntry) :
    String :=
  if entries = [] then "# Version " ++ tag2 ++ "\n\nNo changes.\n"
  else
    let breaking_entries := entries.filter (fun e => e.is_breaking)
    let regular_entries := entries.filter (fun e => !e.is_breaking)
    let grouped := group_entries_by_type regular_entries
    let sorted_types := sortTypesByPriority (grouped.map Prod.fst)
    let sections :=
      ["# Version " ++ tag2, ""] ++
      (if breaking_entries.isEmpty then []
       else [render_breaking_changes breaking_entries]) ++
      sorted_types.map (fun t => render_section t (groupGet grouped t))
    String.intercalate "\n" sections

/-- `generate_changelog` on an already retrieved commit list (the git
subprocess that produces the list is outside the model). -/
def generate_changelog (parser : String → Option ParsedMessage) (tag2 : String)
    (commits : List CommitInfo) : String :=
  generate_changelog_core tag2 (commits.filterMap (parse_commit parser))

/-! ## Embedding of `.github/scripts/demoapps_to_external_push.py`

The publisher's effects are modelled by explicit state passing: `PubState`
records the files and subprocess results the script touches during one run
(`git rev-parse --abbrev-ref HEAD` output, the demo app's `gradle.properties`,
the user's `.netrc`, the environment, and the exit code the copybara
subprocess would return).  File writes set flags so that mutation events are
visible even when a rewrite happens to preserve the content. -/

/-- State of one publisher run. -/
structure PubState where
  /-- Output of `git rev-parse --abbrev-ref HEAD` (already stripped). -/
  branch : String
  /-- Whether `demoapps/<name>/gradle.properties` exists. -/
  props_exists : Bool
  /-- Current content of `gradle.properties`. -/
  props_content : String
  /-- Checked-in content of `gradle.properties` (what `git checkout --`
  restores). -/
  props_git : String
  /-- Whether `./gradlew build` succeeds. -/
  build_ok : Bool
  /-- Result of `detect_ci_environment()`. -/
  is_ci : Bool
  /-- `VIADUCT_GRAPHQL_GITHUB_ACCESS_TOKEN`, if set. -/
  github_token : Option String
  /-- Whether `~/.netrc` exists. -/
  netrc_exists : Bool
  /-- Content of `~/.netrc`. -/
  netrc_content : String
  /-- The `self.netrc_modified` flag. -/
  netrc_modified : Bool
  /-- Whether `gradle.properties` has been written to during the run. -/
  props_written : Bool
  /-- Output of `git rev-parse --show-toplevel`. -/
  git_toplevel : String
  /-- Exit code of the copybara subprocess. -/
  copybara_exit : Nat
  deriving DecidableEq, Repr

/-- First `MULTILINE` match of `^viaductVersion=(.+)$` in a property file:
the remainder of the first line that starts with `viaductVersion=` and is
non-empty after the `=`. -/
def findViaductVersion (content : String) : Option String :=
  match (pySplitChar '\n' content.data).find?
      (fun l => "viaductVersion=".data.isPrefixOf l &&
        decide ("viaductVersion=".length < l.length)) with
  | some l => some (List.asString (l.drop "viaductVersion=".length))
  | none => none

/-- `DemoAppPublisher.verify_release_version_matches_branch`. -/
def verify_release_version_matches_branch (s : PubState) : Bool :=
  if !("release/v".data.isPrefixOf s.branch.data) then false
  else
    let branch_version := List.asString (s.branch.data.drop "release/v".length)
    if !s.props_exists then false
    else
      match findViaductVersion s.props_content with
      | none => false
      | some demoapp_version => demoapp_version == branch_version

/-- `re.sub(r"^viaductVersion=.*", "viaductVersion=" + v, content,
flags=re.MULTILINE)`: every line starting with `viaductVersion=` is replaced
wholesale. -/
def subViaductVersion (content version : String) : String :=
  String.intercalate "\n"
    ((pySplitChar '\n' content.data).map fun l =>
      if "viaductVersion=".data.isPrefixOf l then "viaductVersion=" ++ version
      else List.asString l)

/-- `DemoAppPublisher.update_gradle_properties`. -/
def update_gradle_properties (s : PubState) (published_version : String) :
    PubState :=
  { s with props_content := subViaductVersion s.props_content published_version,
           props_written := true }

/-- The `# BEGIN TEMP GIT ACCESS` marker line (with its newline). -/
def netrcBeginMark : String := "# BEGIN TEMP GIT ACCESS\n"

/-- The `# END TEMP GIT ACCESS` marker line (with its newline). -/
def netrcEndMark : String := "# END TEMP GIT ACCESS\n"

/-- The netrc entry appended by `setup_netrc` for a given token. -/
def netrcEntry (token : String) : String :=
  netrcBeginMark ++ "machine github.com\nlogin x-access-token\npassword " ++
    token ++ "\n" ++ netrcEndMark

/-- `DemoAppPublisher.setup_netrc`: in CI with a token, append the temporary
credential section to `~/.netrc` and set `netrc_modified`. -/
def setup_netrc (s : PubState) : PubState :=
  if !s.is_ci then s
  else
    match s.github_token with
    | none => s
    | some token =>
      { s with netrc_exists := true,
               netrc_content := s.netrc_content ++ netrcEntry token,
               netrc_modified := true }

/-- Head matcher for the cleanup pattern
`# BEGIN TEMP GIT ACCESS\n.*?# END TEMP GIT ACCESS\n` (with `re.DOTALL`):
the begin marker followed (non-greedily) by the first end marker. -/
def matchTempSection (l : List Char) : Option (List Char) :=
  if netrcBeginMark.data.isPrefixOf l then
    findFirstFrom netrcEndMark.data (l.drop netrcBeginMark.data.length)
  else none

/-- `re.sub` of the cleanup pattern by the empty string. -/
def removeTempSections (content : String) : String :=
  ⟨reSubAll matchTempSection [] content.data⟩

/-- `DemoAppPublisher.cleanup`: remove the temporary netrc section (if the
run added one and the file exists) and restore `gradle.properties` to its
checked-in content via `git checkout --` (if the file exists). -/
def cleanup (s : PubState) : PubState :=
  let s1 :=
    if s.netrc_modified && s.netrc_exists then
      { s with netrc_content := removeTempSections s.netrc_content }
    else s
  if s1.props_exists then { s1 with props_content := s1.props_git } else s1

/-- Exit code translation done by `DemoAppPublisher.run_copybara`: copybara
exit code `0` or the `NO_OP_EXIT_CODE` (`4`) count as success (return `0`),
anything else is propagated. -/
def run_copybara_result (returncode : Nat) : Nat :=
  if returncode = 0 ∨ returncode = 4 then 0 else returncode

/-- `DemoAppPublisher.publish`.  The result is `none` when the run dies with
an uncaught exception (`determine_source_repo` raising on an empty git root),
otherwise `some` of the returned exit code; the second component is the state
at process exit (before the `atexit` cleanup handler runs). -/
def publish (s : PubState) : Option Nat × PubState :=
  if !verify_release_version_matches_branch s then (some 1, s)
  else if !s.build_ok then (some 1, s)
  else if s.is_ci && s.github_token == none then (some 1, s)
  else
    let s1 := setup_netrc s
    if pyStrip s.git_toplevel = "" then (none, s1)
    else if "release/v".data.isPrefixOf s.branch.data then
      let published_version := List.asString (s.branch.data.drop "release/v".length)
      let s2 := update_gradle_properties s1 published_version
      (some (run_copybara_result s.copybara_exit), s2)
    else (some 1, s1)

/-- Modelled from the spec: the release-branch naming convention
`release/v[major].[minor].[patch]` that the spec says the current branch must
match (the script itself only ever checks the `release/v` prefix). -/
def matchesReleaseConvention (branch : String) : Bool :=
  if "release/v".data.isPrefixOf branch.data then
    let rest := branch.data.drop "release/v".length
    let d1 := rest.takeWhile Char.isDigit
    let r1 := rest.drop d1.length
    match r1 with
    | '.' :: r2 =>
      let d2 := r2.takeWhile Char.isDigit
      let r3 := r2.drop d2.length
      (match r3 with
       | '.' :: r4 =>
         let d3 := r4.takeWhile Char.isDigit
         !d1.isEmpty && !d2.isEmpty && !d3.isEmpty && r4.drop d3.length = []
       | _ => false)
    | _ => false
  else false

/-! ## Embedding of `docs/plugins/code_snippets.py`

The filesystem is modelled as a partial map from paths to file contents
(`String → Option String`): `fs p = some c` means the file at `p` exists with
content `c`.  Path joining `dir / path` is modelled textually.  The macros
raise `FileNotFoundError` / `ValueError` / `RuntimeError`; these are modelled
by an `Except` result. -/

/-- The exceptions raised by the snippet macros. -/
inductive SnippetError where
  | fileNotFound (msg : String)
  | valueError (msg : String)
  | runtimeError (msg : String)
  deriving DecidableEq, Repr

/-- `LANG_MAP`. -/
def LANG_MAP : List (String × String) :=
  [(".kt", "kotlin"), (".kts", "kotlin"), (".java", "java"),
   (".graphqls", "graphql"), (".graphql", "graphql"), (".yaml", "yaml"),
   (".yml", "yaml"), (".json", "json"), (".md", "markdown"), (".py", "python"),
   (".js", "javascript"), (".ts", "typescript"), (".xml", "xml"),
   (".html", "html"), (".css", "css"), (".sh", "bash"), (".bash", "bash"),
   (".sql", "sql"), (".proto", "protobuf"), (".toml", "toml"),
   (".properties", "properties"), (".gradle", "groovy")]

/-- Model of `pathlib.Path(path).suffix`: the final dot-extension of the last
path component (empty if the last component has no dot or starts with its
only dot). -/
def pathSuffix (path : String) : String :=
  let base := (pySplitChar '/' path.data).getLastD []
  let pre := base.reverse.takeWhile (fun c => c ≠ '.')
  if pre.length + 1 ≤ base.length ∧ pre.length + 1 ≠ base.length then
    List.asString ('.' :: pre.reverse)
  else ""

/-- `infer_language`. -/
def infer_language (path : String) : String :=
  match LANG_MAP.find? (fun p => p.1 == pyLower (pathSuffix path)) with
  | some p => p.2
  | none => "text"

/-- An apostrophe, kept out of the source text of string literals. -/
def squote : String := (Char.ofNat 39).toString

/-- The literal part `tag::<tag>` of the codetag regex
`(?:#|//)?\s*tag::TAG(?:\[(\d+)\])?.*?\n` (the optional comment prefix can be
empty, so a match exists iff this literal occurs with a newline somewhere
after it). -/
def tagLit (tag : String) : List Char := "tag::".data ++ tag.data

/-- Decimal value of a digit run (model of Python `int(...)` on the captured
group). -/
def digitsToNat (ds : List Char) : Nat :=
  ds.foldl (fun n c => n * 10 + (c.toNat - 48)) 0

/-- Parse the optional `[(\d+)]` group directly after the tag literal. -/
def parseBracket (l : List Char) : Option (Nat × List Char) :=
  match l with
  | '[' :: cs =>
    let ds := cs.takeWhile Char.isDigit
    if ds ≠ [] ∧ (cs.drop ds.length).head? = some ']' then
      some (digitsToNat ds, cs.drop (ds.length + 1))
    else none
  | _ => none

/-- Skip to just after the first newline, if any (the `.*?\n` part of the
codetag regex; `.` does not match a newline). -/
def afterNewline : List Char → Option (List Char)
  | [] => none
  | c :: cs => if c = '\n' then some cs else afterNewline cs

/-- Leftmost match of the codetag regex: the captured line-count group (if
any) and the remainder of the content after the matched line. -/
def tagMatch (content : List Char) (tag : String) :
    Option (Option Nat × List Char) :=
  match findFirstFrom (tagLit tag) content with
  | none => none
  | some rest =>
    match parseBracket rest with
    | some (n, rest2) => (afterNewline rest2).map (fun r => (some n, r))
    | none => (afterNewline rest).map (fun r => (none, r))

/-- The tag-extraction body of `codetag` once the file content is read. -/
def codetagBody (content : String) (path tag : String) (lang : String)
    (count : Option Nat) : Except SnippetError String :=
  match tagMatch content.data tag with
  | none =>
    .error (.valueError ("codetag: Tag " ++ squote ++ tag ++ squote ++
      " not found in " ++ path))
  | some (grp, rest) =>
    let lines_to_extract :=
      match count with
      | some n => n
      | none =>
        match grp with
        | some n => n
        | none => 10
    let snippet :=
      String.intercalate "\n"
        (((pySplitChar '\n' rest).map List.asString).take lines_to_extract)
    .ok ("\n```" ++ lang ++ "\n" ++ snippet ++
      "\n```\n\n[View full file on GitHub](https://github.com/airbnb/viaduct/tree/master/" ++
      path ++ ")\n")

/-- The `codetag` macro: resolve the file against the two candidate roots,
then extract the tagged snippet. -/
def codetag (fs : String → Option String) (root1 root2 : String)
    (path tag : String) (lang : Option String) (count : Option Nat) :
    Except SnippetError String :=
  let lang := lang.getD (infer_language path)
  match fs (root1 ++ "/" ++ path) with
  | some content => codetagBody content path tag lang count
  | none =>
    match fs (root2 ++ "/" ++ path) with
    | some content => codetagBody content path tag lang count
    | none =>
      .error (.fileNotFound ("codetag: File not found: " ++ path ++
        " (tried: " ++ (root2 ++ "/" ++ path) ++ ")"))

/-- Model of `f.readlines()`: split keeping the newline terminators. -/
def splitKeepNLGo (acc : List Char) : List Char → List (List Char)
  | [] => if acc = [] then [] else [acc.reverse]
  | c :: cs =>
    if c = '\n' then (acc.reverse ++ ['\n']) :: splitKeepNLGo [] cs
    else splitKeepNLGo (c :: acc) cs

/-- Model of `f.readlines()` on a `String`. -/
def splitKeepNL (content : String) : List (List Char) :=
  splitKeepNLGo [] content.data

/-- The line-slicing body of `codefile` once the file content is read
(`start`/`end` follow Python truthiness: `0` behaves like `None`). -/
def codefileBody (content : String) (path : String)
    (start end_ : Option Nat) (lang : String) : Except SnippetError String :=
  let lines := splitKeepNL content
  let lines2 :=
    if start ≠ none ∨ end_ ≠ none then
      let start_idx :=
        match start with
        | some s => if s ≠ 0 then s - 1 else 0
        | none => 0
      let end_idx :=
        match end_ with
        | some e => if e ≠ 0 then e else lines.length
        | none => lines.length
      (lines.take end_idx).drop start_idx
    else lines
  let body := pyRstrip ⟨lines2.flatten⟩
  let startTruthy : Bool := match start with | some s => s != 0 | none => false
  let endTruthy : Bool := match end_ with | some e => e != 0 | none => false
  let line_range :=
    if startTruthy || endTruthy then
      let s1 := match start with | some s => if s ≠ 0 then s else 1 | none => 1
      let e1 := match end_ with
        | some e => if e ≠ 0 then e else lines2.length
        | none => lines2.length
      " (lines " ++ toString s1 ++ "-" ++ toString e1 ++ ")"
    else ""
  .ok ("\n```" ++ lang ++ "\n" ++ body.data.asString ++
    "\n```\n\n[View full file on GitHub](https://github.com/airbnb/viaduct/tree/master/" ++
    path ++ ")" ++ line_range ++ "\n")

/-- The `codefile` macro. -/
def codefile (fs : String → Option String) (root1 root2 : String)
    (path : String) (start end_ : Option Nat) (lang : Option String) :
    Except SnippetError String :=
  let lang := lang.getD (infer_language path)
  match fs (root1 ++ "/" ++ path) with
  | some content => codefileBody content path start end_ lang
  | none =>
    match fs (root2 ++ "/" ++ path) with
    | some content => codefileBody content path start end_ lang
    | none =>
      .error (.fileNotFound ("codefile: File not found: " ++ path ++
        " (tried: " ++ (root2 ++ "/" ++ path) ++ ")"))

/-! ## Claim C5: the `ignore:` filter -/

/-- Claim C5: `parse_commit` returns no entry exactly when the commit message
starts with the prefix `ignore:` after lower-casing (any letter case); every
other commit yields an entry, whatever the conventional-commit parser says. -/
theorem parse_commit_none_iff_ignore (parser : String → Option ParsedMessage)
    (commit : CommitInfo) :
    parse_commit parser commit = none ↔
      "ignore:".data.isPrefixOf (pyLower commit.message).data = true := by
  cases hsi : should_include_commit commit.message with
  | false =>
    have hpre : "ignore:".data.isPrefixOf (pyLower commit.message).data = true := by
      have h2 := hsi
      simp only [should_include_commit, Bool.not_eq_false'] at h2
      simpa [pyLower] using h2
    simp [parse_commit, hsi, hpre]
  | true =>
    have hpre : "ignore:".data.isPrefixOf (pyLower commit.message).data = false := by
      have h2 := hsi
      simp only [should_include_commit, Bool.not_eq_true'] at h2
      simpa [pyLower] using h2
    simp only [parse_commit, hsi, Bool.not_true, Bool.false_eq_true, if_false]
    cases parser (replace_airbnb_marker (clean_commit_message commit.message)
        commit.sha ++ "\n\n" ++ commit.body) <;>
      simp [hpre]

/-! ## Claim C8: copybara exit-code handling -/

/-- Claim C8: `run_copybara` reports success (returns 0) exactly when the
copybara subprocess exits with code 0 or the designated no-op code 4, and any
other exit code is propagated unchanged as the failure result. -/
theorem run_copybara_exit_codes (returncode : Nat) :
    (run_copybara_result returncode = 0 ↔ (returncode = 0 ∨ returncode = 4)) ∧
      (returncode ≠ 0 → returncode ≠ 4 →
        run_copybara_result returncode = returncode) := by
  unfold run_copybara_result
  by_cases h : returncode = 0 ∨ returncode = 4
  · simp [h]
    tauto
  · simp [h]
    tauto

/-- Witness for claim C8 at the exit codes 4 (no-op) and 7 (failure). -/
theorem run_copybara_exit_codes_witness :
    run_copybara_result 4 = 0 ∧ run_copybara_result 7 = 7 :=
  ⟨(run_copybara_exit_codes 4).1.mpr (Or.inr rfl),
   (run_copybara_exit_codes 7).2 (by decide) (by decide)⟩

/-! ## Claim C10: anonymous attribution -/

/-- Claim C10: an entry whose resolved author list is empty is rendered with
attribution to `@anonymous` rather than without attribution. -/
theorem formatted_entry_empty_authors (e : ChangelogEntry)
    (h : e.authors = []) :
    e.formatted_entry = e.description ++ " by @anonymous" := by
  have h1 : e.formatted_authors = "@anonymous" := by
    simp [ChangelogEntry.formatted_authors, h]
  rw [ChangelogEntry.formatted_entry, h1, String.append_assoc]
  congr 1

/-- A concrete entry with no resolved authors (for example one whose author
and co-authors were all bots). -/
def anonEntry : ChangelogEntry :=
  { sha := "abc1234", message := "fix: handle empty input", authors := [],
    change_type := some "fix", scope := none,
    description := "handle empty input", is_breaking := false,
    breaking_description := none, bump := LevelBump.PATCH }

/-- Witness for claim C10. -/
theorem formatted_entry_empty_authors_witness :
    anonEntry.authors = [] ∧
      anonEntry.formatted_entry = anonEntry.description ++ " by @anonymous" :=
  ⟨rfl, formatted_entry_empty_authors anonEntry rfl⟩

/-! ## Claim C9: snippet macro error handling -/

/-- Claim C9: when the requested file exists under neither candidate root,
both `codetag` and `codefile` raise a `FileNotFoundError` naming the path;
when the file exists but contains no `tag::<tag>` marker, `codetag` raises a
`ValueError` naming the tag and the path; in all three cases the result is an
error, never a fallback snippet. -/
theorem snippet_macro_errors (fsA fsB : String → Option String)
    (root1 root2 path tag : String) (lang : Option String) (count : Option Nat)
    (start end_ : Option Nat) (content : String)
    (h1 : fsA (root1 ++ "/" ++ path) = none)
    (h2 : fsA (root2 ++ "/" ++ path) = none)
    (h3 : fsB (root1 ++ "/" ++ path) = some content)
    (h4 : findFirstFrom (tagLit tag) content.data = none) :
    codetag fsA root1 root2 path tag lang count =
      .error (.fileNotFound ("codetag: File not found: " ++ path ++
        " (tried: " ++ (root2 ++ "/" ++ path) ++ ")")) ∧
    codefile fsA root1 root2 path start end_ lang =
      .error (.fileNotFound ("codefile: File not found: " ++ path ++
        " (tried: " ++ (root2 ++ "/" ++ path) ++ ")")) ∧
    codetag fsB root1 root2 path tag lang count =
      .error (.valueError ("codetag: Tag " ++ squote ++ tag ++ squote ++
        " not found in " ++ path)) := by
  refine ⟨?_, ?_, ?_⟩
  · simp [codetag, h1, h2]
  · simp [codefile, h1, h2]
  · simp [codetag, h3, codetagBody, tagMatch, h4]

/-- A filesystem with no files at all. -/
def snippetFsA : String → Option String := fun _ => none

/-- A filesystem holding one kotlin file without any tag marker. -/
def snippetFsB : String → Option String :=
  fun p => if p = "r1/a.kt" then some "val x = 1\n" else none

/-- Witness for claim C9 at a concrete path, tag and filesystem. -/
theorem snippet_macro_errors_witness :
    codetag snippetFsA "r1" "r2" "a.kt" "EXAMPLE" none none =
      .error (.fileNotFound ("codetag: File not found: " ++ "a.kt" ++
        " (tried: " ++ ("r2" ++ "/" ++ "a.kt") ++ ")")) ∧
    codefile snippetFsA "r1" "r2" "a.kt" none none none =
      .error (.fileNotFound ("codefile: File not found: " ++ "a.kt" ++
        " (tried: " ++ ("r2" ++ "/" ++ "a.kt") ++ ")")) ∧
    codetag snippetFsB "r1" "r2" "a.kt" "EXAMPLE" none none =
      .error (.valueError ("codetag: Tag " ++ squote ++ "EXAMPLE" ++ squote ++
        " not found in " ++ "a.kt")) :=
  snippet_macro_errors snippetFsA snippetFsB "r1" "r2" "a.kt" "EXAMPLE"
    none none none none "val x = 1\n" rfl rfl (by decide) (by decide)

/-! ## Claim C3: the publisher's release-branch check -/

/-- A run state on branch `release/vnightly`: the branch does not match the
`release/v[major].[minor].[patch]` convention, yet its `gradle.properties`
version string agrees with the branch suffix. -/
def pubCexState : PubState :=
  { branch := "release/vnightly", props_exists := true,
    props_content := "viaductVersion=nightly",
    props_git := "viaductVersion=nightly", build_ok := true, is_ci := false,
    github_token := none, netrc_exists := true,
    netrc_content := "machine example.com\n", netrc_modified := false,
    props_written := false, git_toplevel := "/repo", copybara_exit := 0 }

/-- Counterexample to claim C3 as stated: on the branch `release/vnightly`,
which does not match `release/v[major].[minor].[patch]`, `publish` does not
abort: it returns exit code 0 and rewrites the `gradle.properties` version
file, because the script only ever checks the `release/v` prefix. -/
theorem publish_nonrelease_counterexample :
    matchesReleaseConvention pubCexState.branch = false ∧
    (publish pubCexState).1 = some 0 ∧
    (publish pubCexState).2.props_written = true := by
  refine ⟨by decide, by decide, by decide⟩

/-- Claim C3 as amended: for every run whose current branch does not start
with the `release/v` prefix, `publish` returns exit code 1 with the state
untouched — no credential-file append and no version-file rewrite. -/
theorem publish_aborts_without_release_branch (s : PubState)
    (h : "release/v".data.isPrefixOf s.branch.data = false) :
    publish s = (some 1, s) := by
  have hv : verify_release_version_matches_branch s = false := by
    simp [verify_release_version_matches_branch, h]
  simp [publish, hv]

/-- A run state on the branch `main`. -/
def pubMainState : PubState :=
  { branch := "main", props_exists := true,
    props_content := "viaductVersion=1.2.3", props_git := "viaductVersion=1.2.3",
    build_ok := true, is_ci := true, github_token := some "tok",
    netrc_exists := true, netrc_content := "machine example.com\n",
    netrc_modified := false, props_written := false, git_toplevel := "/repo",
    copybara_exit := 0 }

/-- Witness for the amended claim C3 on the branch `main`. -/
theorem publish_aborts_without_release_branch_witness :
    "release/v".data.isPrefixOf pubMainState.branch.data = false ∧
    publish pubMainState = (some 1, pubMainState) :=
  ⟨by decide, publish_aborts_without_release_branch pubMainState (by decide)⟩

/-! ## Claim C2: breaking changes form a dedicated leading section -/

theorem addToGroup_mem {g : List (String × List ChangelogEntry)} {key : String}
    {e : ChangelogEntry} {ty : String} {l : List ChangelogEntry}
    (h : (ty, l) ∈ addToGroup g key e) :
    ∀ a ∈ l, (∃ l', (ty, l') ∈ g ∧ a ∈ l') ∨ a = e := by
  induction g with
  | nil =>
    intro a ha
    simp only [addToGroup, List.mem_singleton, Prod.mk.injEq] at h
    rcases h with ⟨rfl, rfl⟩
    right
    simpa using ha
  | cons p rest ih =>
    intro a ha
    obtain ⟨k, lst⟩ := p
    by_cases hk : k = key
    · rw [addToGroup, if_pos hk] at h
      rcases List.mem_cons.mp h with heq | hrest
      · injection heq with h1 h2
        rcases List.mem_append.mp (h2 ▸ ha) with hl | he
        · exact Or.inl ⟨lst, by rw [h1]; exact List.mem_cons_self _ _, hl⟩
        · right; simpa using he
      · exact Or.inl ⟨l, List.mem_cons_of_mem _ hrest, ha⟩
    · rw [addToGroup, if_neg hk] at h
      rcases List.mem_cons.mp h with heq | hrest
      · injection heq with h1 h2
        exact Or.inl ⟨lst, by rw [h1]; exact List.mem_cons_self _ _, h2 ▸ ha⟩
      · rcases ih hrest a ha with ⟨l', hl', hal'⟩ | rfl
        · exact Or.inl ⟨l', List.mem_cons_of_mem _ hl', hal'⟩
        · exact Or.inr rfl

theorem foldl_group_mem :
    ∀ (xs : List ChangelogEntry) (g : List (String × List ChangelogEntry))
      (ty : String) (l : List ChangelogEntry),
      (ty, l) ∈ xs.foldl (fun g e => addToGroup g (groupKey e) e) g →
      ∀ a ∈ l, (∃ l', (ty, l') ∈ g ∧ a ∈ l') ∨ a ∈ xs := by
  intro xs
  induction xs with
  | nil =>
    intro g ty l h a ha
    exact Or.inl ⟨l, h, ha⟩
  | cons x xs ih =>
    intro g ty l h a ha
    rcases ih (addToGroup g (groupKey x) x) ty l h a ha with ⟨l', hl', hal'⟩ | hax
    · rcases addToGroup_mem hl' a hal' with ⟨l'', hl'', hal''⟩ | rfl
      · exact Or.inl ⟨l'', hl'', hal''⟩
      · right; simp
    · right; simp [hax]

/-- Every entry stored in a group of `group_entries_by_type xs` comes from
`xs`. -/
theorem group_entries_mem {xs : List ChangelogEntry} {ty : String}
    {l : List ChangelogEntry} (h : (ty, l) ∈ group_entries_by_type xs) :
    ∀ a ∈ l, a ∈ xs := by
  intro a ha
  rcases foldl_group_mem xs [] ty l h a ha with ⟨l', hl', _⟩ | hax
  · simp at hl'
  · exact hax

/-- Claim C2: a breaking entry is rendered exactly once, in the dedicated
`Breaking Changes` section placed right after the header and before every
type section, and it is absent from every per-type group fed to the normal
sections (which are built from the non-breaking entries only). -/
theorem breaking_changes_dedicated_section (tag2 : String)
    (entries : List ChangelogEntry) (e : ChangelogEntry)
    (hmem : e ∈ entries) (hbrk : e.is_breaking = true) :
    generate_changelog_core tag2 entries =
      String.intercalate "\n"
        (["# Version " ++ tag2, ""] ++
          [render_breaking_changes (entries.filter (fun x => x.is_breaking))] ++
          (sortTypesByPriority
              ((group_entries_by_type
                (entries.filter (fun x => !x.is_breaking))).map Prod.fst)).map
            (fun t => render_section t
              (groupGet
                (group_entries_by_type (entries.filter (fun x => !x.is_breaking)))
                t))) ∧
    (entries.filter (fun x => x.is_breaking)).count e = entries.count e ∧
    (∀ ty l,
      (ty, l) ∈ group_entries_by_type (entries.filter (fun x => !x.is_breaking)) →
      e ∉ l) := by
  have hne : ¬ entries = [] := by
    intro h
    subst h
    simp at hmem
  have hbne : (entries.filter (fun x => x.is_breaking)).isEmpty = false := by
    have : e ∈ entries.filter (fun x => x.is_breaking) :=
      List.mem_filter.mpr ⟨hmem, hbrk⟩
    cases hh : (entries.filter (fun x => x.is_breaking)) with
    | nil => rw [hh] at this; simp at this
    | cons a as => simp [hh]
  refine ⟨?_, ?_, ?_⟩
  · simp only [generate_changelog_core, if_neg hne, hbne, Bool.false_eq_true,
      if_false]
  · exact List.count_filter hbrk
  · intro ty l htl hel
    have hreg := group_entries_mem htl e hel
    have := (List.mem_filter.mp hreg).2
    rw [hbrk] at this
    simp at this

/-- A concrete breaking entry. -/
def brkEntry : ChangelogEntry :=
  { sha := "deadbee", message := "feat!: rework api", authors := ["@alice"],
    change_type := some "feat", scope := none, description := "rework api",
    is_breaking := true, breaking_description := some "api reworked",
    bump := LevelBump.MAJOR }

/-- A concrete non-breaking entry. -/
def featEntry : ChangelogEntry :=
  { sha := "cafef00", message := "feat: add thing", authors := ["@bob"],
    change_type := some "feat", scope := none, description := "add thing",
    is_breaking := false, breaking_description := none,
    bump := LevelBump.MINOR }

/-- A concrete parsed-commit list with one breaking and one regular entry. -/
def c2Entries : List ChangelogEntry := [brkEntry, featEntry]

/-- Witness for claim C2 on a concrete entry list. -/
theorem breaking_changes_dedicated_section_witness :
    generate_changelog_core "1.0.0" c2Entries =
      String.intercalate "\n"
        (["# Version " ++ "1.0.0", ""] ++
          [render_breaking_changes (c2Entries.filter (fun x => x.is_breaking))] ++
          (sortTypesByPriority
              ((group_entries_by_type
                (c2Entries.filter (fun x => !x.is_breaking))).map Prod.fst)).map
            (fun t => render_section t
              (groupGet
                (group_entries_by_type (c2Entries.filter (fun x => !x.is_breaking)))
                t))) ∧
    (c2Entries.filter (fun x => x.is_breaking)).count brkEntry =
      c2Entries.count brkEntry ∧
    (∀ ty l,
      (ty, l) ∈ group_entries_by_type (c2Entries.filter (fun x => !x.is_breaking)) →
      brkEntry ∉ l) :=
  breaking_changes_dedicated_section "1.0.0" c2Entries brkEntry (by decide) rfl

/-! ## Claim C7: section ordering by the fixed priority table -/

theorem insertByPriority_mem {x y : String} :
    ∀ {l : List String}, y ∈ insertByPriority x l ↔ y = x ∨ y ∈ l := by
  intro l
  induction l with
  | nil => simp [insertByPriority]
  | cons z zs ih =>
    by_cases hz : typePriority z ≤ typePriority x
    · simp only [insertByPriority, if_pos hz, List.mem_cons, ih]
      tauto
    · simp only [insertByPriority, if_neg hz, List.mem_cons]

theorem insertByPriority_pairwise {x : String} :
    ∀ {l : List String},
      l.Pairwise (fun a b => typePriority a ≤ typePriority b) →
      (insertByPriority x l).Pairwise (fun a b => typePriority a ≤ typePriority b) := by
  intro l
  induction l with
  | nil => intro _; simp [insertByPriority]
  | cons z zs ih =>
    intro hp
    rcases List.pairwise_cons.mp hp with ⟨hz, hzs⟩
    by_cases hle : typePriority z ≤ typePriority x
    · rw [insertByPriority, if_pos hle]
      refine List.pairwise_cons.mpr ⟨?_, ih hzs⟩
      intro b hb
      rcases insertByPriority_mem.mp hb with rfl | hbz
      · exact hle
      · exact hz b hbz
    · rw [insertByPriority, if_neg hle]
      have hxz : typePriority x ≤ typePriority z := le_of_not_le hle
      refine List.pairwise_cons.mpr ⟨?_, hp⟩
      intro b hb
      rcases List.mem_cons.mp hb with rfl | hbz
      · exact hxz
      · exact le_trans hxz (hz b hbz)

theorem sortTypesByPriority_pairwise (l : List String) :
    (sortTypesByPriority l).Pairwise (fun a b => typePriority a ≤ typePriority b) := by
  have hgen : ∀ (xs acc : List String),
      acc.Pairwise (fun a b => typePriority a ≤ typePriority b) →
      (xs.foldl (fun acc x => insertByPriority x acc) acc).Pairwise
        (fun a b => typePriority a ≤ typePriority b) := by
    intro xs
    induction xs with
    | nil => intro acc h; exact h
    | cons x xs ih =>
      intro acc h
      exact ih (insertByPriority x acc) (insertByPriority_pairwise h)
  exact hgen l [] (by simp)

theorem typePriority_known_le {t : String} (h : isKnownType t = true) :
    typePriority t ≤ 10 := by
  unfold isKnownType at h
  unfold typePriority
  cases hf : changeTypesGet t with
  | none => rw [hf] at h; simp at h
  | some pr =>
    unfold changeTypesGet at hf
    cases hg : CHANGE_TYPES.find? (fun p => p.1 == t) with
    | none => rw [hg] at hf; simp at hf
    | some p =>
      rw [hg] at hf
      have hmem := List.mem_of_find?_eq_some hg
      have hpr : pr = p.2 := by
        have h2 : some p.2 = some pr := by simpa using hf
        injection h2 with h3
        exact h3.symm
      subst hpr
      simp only [CHANGE_TYPES, List.mem_cons, List.mem_singleton,
        List.not_mem_nil, or_false] at hmem
      rcases hmem with rfl | rfl | rfl | rfl | rfl | rfl | rfl | rfl | rfl | rfl <;>
        simp

theorem typePriority_unknown {t : String} (h : isKnownType t = false) :
    typePriority t = 99 := by
  unfold isKnownType at h
  unfold typePriority
  cases hf : changeTypesGet t with
  | none => simp
  | some pr => rw [hf] at h; simp at h

theorem known_before_unknown :
    ∀ (l : List String),
      l.Pairwise (fun a b => typePriority a ≤ typePriority b) →
      l.filter isKnownType ++ l.filter (fun t => !isKnownType t) = l := by
  intro l
  induction l with
  | nil => simp
  | cons h t ih =>
    intro hp
    rcases List.pairwise_cons.mp hp with ⟨hh, ht⟩
    cases hk : isKnownType h with
    | true =>
      rw [List.filter_cons_of_pos hk, List.filter_cons_of_neg (by simp [hk])]
      simp only [List.cons_append]
      rw [ih ht]
    | false =>
      have h99 := typePriority_unknown hk
      have hallu : ∀ b ∈ t, isKnownType b = false := by
        intro b hb
        cases hkb : isKnownType b with
        | false => rfl
        | true =>
          have h1 := typePriority_known_le hkb
          have h2 := hh b hb
          rw [h99] at h2
          omega
      rw [List.filter_cons_of_neg (by simp [hk]), List.filter_cons_of_pos (by simp [hk])]
      have hfk : t.filter isKnownType = [] :=
        List.filter_eq_nil_iff.mpr (fun b hb => by simp [hallu b hb])
      have hfu : t.filter (fun x => !isKnownType x) = t :=
        List.filter_eq_self.mpr (fun b hb => by simp [hallu b hb])
      rw [hfk, hfu]
      simp

/-- Claim C7: for non-breaking entries the changelog is the header followed by
one section per grouped change type; the section order is sorted by the fixed
priority table, every type outside the table (priority 99) comes after every
recognized type, and such a type's section is rendered under its titleized
heading. -/
theorem sections_ordered_by_priority (tag2 : String)
    (entries : List ChangelogEntry) (hne : entries ≠ [])
    (hreg : ∀ e ∈ entries, e.is_breaking = false) :
    generate_changelog_core tag2 entries =
      String.intercalate "\n"
        (["# Version " ++ tag2, ""] ++
          (sortTypesByPriority ((group_entries_by_type entries).map Prod.fst)).map
            (fun t => render_section t (groupGet (group_entries_by_type entries) t))) ∧
    (sortTypesByPriority ((group_entries_by_type entries).map Prod.fst)).Pairwise
      (fun a b => typePriority a ≤ typePriority b) ∧
    ((sortTypesByPriority ((group_entries_by_type entries).map Prod.fst)).filter
        isKnownType ++
      (sortTypesByPriority ((group_entries_by_type entries).map Prod.fst)).filter
        (fun t => !isKnownType t) =
      sortTypesByPriority ((group_entries_by_type entries).map Prod.fst)) ∧
    (∀ ty, isKnownType ty = false → ∀ l,
      render_section ty l =
        String.intercalate "\n"
          (["## " ++ pyTitle ty, ""] ++
            l.map (fun e => "- " ++ e.formatted_entry) ++ [""])) := by
  have hbrk : entries.filter (fun e => e.is_breaking) = [] :=
    List.filter_eq_nil_iff.mpr (fun e he => by simp [hreg e he])
  have hregall : entries.filter (fun e => !e.is_breaking) = entries :=
    List.filter_eq_self.mpr (fun e he => by simp [hreg e he])
  refine ⟨?_, sortTypesByPriority_pairwise _, known_before_unknown _
    (sortTypesByPriority_pairwise _), ?_⟩
  · simp only [generate_changelog_core, if_neg hne, hbrk, hregall, List.isEmpty_nil,
      if_true]
    simp
  · intro ty hty l
    have hget : changeTypesGet ty = none := by
      unfold isKnownType at hty
      exact Option.not_isSome_iff_eq_none.mp (by simp [hty])
    simp [render_section, hget]

/-- A concrete non-breaking entry with a change type outside the priority
table. -/
def wipEntry : ChangelogEntry :=
  { sha := "0011223", message := "wip: experiment", authors := ["@carol"],
    change_type := some "wip", scope := none, description := "experiment",
    is_breaking := false, breaking_description := none,
    bump := LevelBump.NO_RELEASE }

/-- A concrete non-breaking entry list mixing a known and an unknown type. -/
def c7Entries : List ChangelogEntry := [wipEntry, featEntry]

/-- Witness for claim C7 on a concrete entry list. -/
theorem sections_ordered_by_priority_witness :
    generate_changelog_core "2.0.0" c7Entries =
      String.intercalate "\n"
        (["# Version " ++ "2.0.0", ""] ++
          (sortTypesByPriority ((group_entries_by_type c7Entries).map Prod.fst)).map
            (fun t => render_section t (groupGet (group_entries_by_type c7Entries) t))) ∧
    (sortTypesByPriority ((group_entries_by_type c7Entries).map Prod.fst)).Pairwise
      (fun a b => typePriority a ≤ typePriority b) ∧
    ((sortTypesByPriority ((group_entries_by_type c7Entries).map Prod.fst)).filter
        isKnownType ++
      (sortTypesByPriority ((group_entries_by_type c7Entries).map Prod.fst)).filter
        (fun t => !isKnownType t) =
      sortTypesByPriority ((group_entries_by_type c7Entries).map Prod.fst)) ∧
    (∀ ty, isKnownType ty = false → ∀ l,
      render_section ty l =
        String.intercalate "\n"
          (["## " ++ pyTitle ty, ""] ++
            l.map (fun e => "- " ++ e.formatted_entry) ++ [""])) :=
  sections_ordered_by_priority "2.0.0" c7Entries (by decide) (by decide)

/-! ## Claim C6: author handle resolution -/

theorem asString_data (s : String) : List.asString s.data = s := by
  cases s
  rfl

/-- Model of Python `sep.join(pieces)` for a one-character separator (the form
in which `git log` assembles the co-author trailer text with `%x7C`). -/
def joinSep (sep : Char) : List String → String
  | [] => ""
  | [s] => s
  | s :: rest => s ++ sep.toString ++ joinSep sep rest

theorem pySplitChar_no_sep {sep : Char} :
    ∀ {l : List Char}, (∀ ch ∈ l, ch ≠ sep) → pySplitChar sep l = [l] := by
  intro l
  induction l with
  | nil => intro _; rfl
  | cons c cs ih =>
    intro h
    have hc : c ≠ sep := h c (by simp)
    rw [pySplitChar, ih (fun ch hch => h ch (by simp [hch]))]
    simp [hc]

theorem pySplitChar_ne_nil {sep : Char} : ∀ (l : List Char), pySplitChar sep l ≠ [] := by
  intro l
  induction l with
  | nil => simp [pySplitChar]
  | cons c cs ih =>
    rw [pySplitChar]
    cases hs : pySplitChar sep cs with
    | nil => exact absurd hs ih
    | cons h t =>
      by_cases hc : c = sep <;> simp [hc]

theorem pySplitChar_append_sep {sep : Char} :
    ∀ (xs l : List Char), (∀ ch ∈ xs, ch ≠ sep) →
      pySplitChar sep (xs ++ sep :: l) = xs :: pySplitChar sep l := by
  intro xs
  induction xs with
  | nil =>
    intro l _
    rw [List.nil_append, pySplitChar]
    cases hs : pySplitChar sep l with
    | nil => exact absurd hs (pySplitChar_ne_nil l)
    | cons h t => simp
  | cons x xs ih =>
    intro l h
    have hx : x ≠ sep := h x (by simp)
    rw [List.cons_append, pySplitChar, ih l (fun ch hch => h ch (by simp [hch]))]
    simp [hx]

theorem pySplitChar_joinSep {sep : Char} :
    ∀ (cos : List String), cos ≠ [] →
      (∀ co ∈ cos, ∀ ch ∈ co.data, ch ≠ sep) →
      pySplitChar sep (joinSep sep cos).data = cos.map String.data := by
  intro cos
  induction cos with
  | nil => intro h _; exact absurd rfl h
  | cons c cs ih =>
    intro _ hfree
    cases cs with
    | nil =>
      rw [joinSep]
      simp only [List.map_cons, List.map_nil]
      exact pySplitChar_no_sep (hfree c (by simp))
    | cons c2 rest =>
      have hjoin : joinSep sep (c :: c2 :: rest) = c ++ sep.toString ++ joinSep sep (c2 :: rest) := rfl
      rw [hjoin]
      have hdata : (c ++ sep.toString ++ joinSep sep (c2 :: rest)).data =
          c.data ++ sep :: (joinSep sep (c2 :: rest)).data := by
        simp [String.data_append, Char.toString]
      rw [hdata, pySplitChar_append_sep c.data _ (hfree c (by simp))]
      rw [ih (by simp) (fun co hco ch hch => hfree co (by simp [hco]) ch hch)]
      simp

/-- Compute `extract_username_from_email` on a well-formed email: the handle
is the `@`-prefixed local part, or nothing when the local part is a bot name. -/
theorem extract_username_from_email_append (localp dom : String)
    (h1 : localp ≠ "") (h2 : ∀ ch ∈ localp.data, ch ≠ '@') :
    extract_username_from_email (localp ++ "@" ++ dom) =
      if localp ∈ BOT_USERNAMES then none else some ("@" ++ localp) := by
  have hdata : (localp ++ "@" ++ dom).data = localp.data ++ '@' :: dom.data := by
    simp [String.data_append]
  have hne : localp ++ "@" ++ dom ≠ "" := by
    intro h
    have := congrArg String.data h
    rw [hdata] at this
    simp at this
  have hpre : (localp ++ "@" ++ dom).data.takeWhile (fun c => c ≠ '@') = localp.data := by
    rw [hdata]
    rw [takeWhile_append_all ('@' :: dom.data)
      (fun c hc => by simp [h2 c hc])]
    rw [@takeWhile_head_false (fun c => decide (c ≠ '@')) _
      (fun c hc => by simp at hc; simp [hc.symm])]
    simp
  have hlocne : localp.data ≠ [] := by
    intro h
    exact h1 (by cases localp with | mk d => simp at h; simp [h])
  rw [extract_username_from_email, if_neg hne]
  simp only [hpre]
  rw [if_neg (by rw [List.length_eq_zero]; exact hlocne)]
  rw [if_neg (by
    rw [hdata, List.length_append]
    simp only [List.length_cons]
    omega)]
  rw [asString_data]

/-- Skip a `<`-free region when searching for the co-author pattern. -/
theorem coauthorMatch_append {xs : List Char} :
    ∀ (l : List Char), (∀ c ∈ xs, c ≠ '<') →
      coauthorMatch (xs ++ l) = coauthorMatch l := by
  induction xs with
  | nil => intro l _; rfl
  | cons x xs ih =>
    intro l h
    have hx : x ≠ '<' := h x (by simp)
    rw [List.cons_append, coauthorMatch]
    simp only [if_neg hx]
    exact ih l (fun c hc => h c (by simp [hc]))

/-- Compute `extract_username_from_coauthor` on a well-formed co-author line
`Name <local@domain>`. -/
theorem extract_username_from_coauthor_append (name localp rest : String)
    (h1 : localp ≠ "") (h2 : ∀ ch ∈ localp.data, ch ≠ '@')
    (h6 : ∀ ch ∈ name.data, ch ≠ '<') :
    extract_username_from_coauthor (name ++ "<" ++ localp ++ "@" ++ rest) =
      if localp ∈ BOT_USERNAMES then none else some ("@" ++ localp) := by
  have hdata : (name ++ "<" ++ localp ++ "@" ++ rest).data =
      name.data ++ '<' :: (localp.data ++ '@' :: rest.data) := by
    simp [String.data_append]
  have hlocne : localp.data ≠ [] := by
    intro h
    exact h1 (by cases localp with | mk d => simp at h; simp [h])
  have hmatch : coauthorMatch (name ++ "<" ++ localp ++ "@" ++ rest).data =
      some localp.data := by
    rw [hdata, coauthorMatch_append _ h6, coauthorMatch]
    simp only [if_pos rfl]
    have hgrp : (localp.data ++ '@' :: rest.data).takeWhile (fun c => c ≠ '@') =
        localp.data := by
      rw [takeWhile_append_all ('@' :: rest.data) (fun c hc => by simp [h2 c hc])]
      rw [@takeWhile_head_false (fun c => decide (c ≠ '@')) _
        (fun c hc => by simp at hc; simp [hc.symm])]
      simp
    simp only [hgrp]
    have hcond : localp.data.length ≠ 0 ∧
        localp.data.length ≠ (localp.data ++ '@' :: rest.data).length := by
      constructor
      · intro h
        exact hlocne (List.length_eq_zero.mp h)
      · rw [List.length_append]
        simp only [List.length_cons]
        omega
    exact if_pos hcond
  simp only [extract_username_from_coauthor, hmatch, asString_data]

/-- Claim C6: the resolved author list is the primary author's `@`-prefixed
email local part followed by one handle per `|`-separated co-author trailer;
a well-formed email `local@domain` yields `@local`, any local part in the
fixed bot set yields no handle, a co-author line `Name <local@domain>` yields
`@local` the same way, and each co-author piece is resolved independently of
the others. -/
theorem extract_authors_resolution (localp dom name rest dom2 u : String)
    (sha msg body em : String) (cos : List String)
    (h1 : localp ≠ "") (h2 : ∀ ch ∈ localp.data, ch ≠ '@')
    (h3 : localp ∉ BOT_USERNAMES) (h4 : u ∈ BOT_USERNAMES)
    (h6 : ∀ ch ∈ name.data, ch ≠ '<')
    (h7 : cos ≠ []) (h8 : ∀ co ∈ cos, ∀ ch ∈ co.data, ch ≠ '|')
    (h9 : joinSep '|' cos ≠ "") :
    extract_username_from_email (localp ++ "@" ++ dom) = some ("@" ++ localp) ∧
    extract_username_from_email (u ++ "@" ++ dom2) = none ∧
    extract_username_from_coauthor (name ++ "<" ++ localp ++ "@" ++ rest) =
      some ("@" ++ localp) ∧
    extract_authors ⟨sha, msg, body, em, joinSep '|' cos⟩ =
      (extract_username_from_email em).toList ++
        cos.filterMap (fun co =>
          if pyStrip co ≠ "" then extract_username_from_coauthor (pyStrip co)
          else none) := by
  refine ⟨?_, ?_, ?_, ?_⟩
  · rw [extract_username_from_email_append localp dom h1 h2, if_neg h3]
  · have hu1 : u ≠ "" := by
      rcases (by simpa [BOT_USERNAMES] using h4 :
        u = "noreply" ∨ u = "no-reply" ∨ u = "github-actions" ∨ u = "viaductbot")
        with rfl | rfl | rfl | rfl <;> decide
    have hu2 : ∀ ch ∈ u.data, ch ≠ '@' := by
      rcases (by simpa [BOT_USERNAMES] using h4 :
        u = "noreply" ∨ u = "no-reply" ∨ u = "github-actions" ∨ u = "viaductbot")
        with rfl | rfl | rfl | rfl <;> decide
    rw [extract_username_from_email_append u dom2 hu1 hu2, if_pos h4]
  · rw [extract_username_from_coauthor_append name localp rest h1 h2 h6, if_neg h3]
  · rw [extract_authors]
    have hsplit : pySplit '|' (joinSep '|' cos) = cos := by
      rw [pySplit, pySplitChar_joinSep cos h7 h8]
      rw [List.map_map]
      have : (List.asString ∘ String.data) = id := by
        funext s
        exact asString_data s
      rw [this, List.map_id]
    simp only [if_pos h9, hsplit]
    congr 1
    cases extract_username_from_email em <;> rfl

/-- Witness for claim C6 at a concrete email, bot name, co-author line and
trailer list. -/
theorem extract_authors_resolution_witness :
    extract_username_from_email ("john.doe" ++ "@" ++ "example.com") =
      some ("@" ++ "john.doe") ∧
    extract_username_from_email ("github-actions" ++ "@" ++ "github.com") = none ∧
    extract_username_from_coauthor ("Jane Smith " ++ "<" ++ "john.doe" ++ "@" ++
      "company.com>") = some ("@" ++ "john.doe") ∧
    extract_authors ⟨"abc1234", "fix: x", "", "dev@example.com",
        joinSep '|' ["Alice <alice@x.com>", "GitHub <noreply@github.com>"]⟩ =
      (extract_username_from_email "dev@example.com").toList ++
        ["Alice <alice@x.com>", "GitHub <noreply@github.com>"].filterMap (fun co =>
          if pyStrip co ≠ "" then extract_username_from_coauthor (pyStrip co)
          else none) :=
  extract_authors_resolution "john.doe" "example.com" "Jane Smith " "company.com>"
    "github.com" "github-actions" "abc1234" "fix: x" "" "dev@example.com"
    ["Alice <alice@x.com>", "GitHub <noreply@github.com>"]
    (by decide) (by decide) (by decide) (by decide) (by decide) (by decide)
    (by decide) (by decide)

/-! ## Claim C4: guaranteed cleanup on process exit -/

theorem matchTempSection_shrinks : MatcherShrinks matchTempSection := by
  intro l r h
  unfold matchTempSection at h
  by_cases hp : netrcBeginMark.data.isPrefixOf l = true
  · rw [if_pos hp] at h
    have hlen := findFirstFrom_length h
    have hble : netrcBeginMark.data.length ≤ l.length :=
      (List.isPrefixOf_iff_prefix.mp hp).length_le
    have hdlen : (l.drop netrcBeginMark.data.length).length =
        l.length - netrcBeginMark.data.length := by simp
    have hBpos : 0 < netrcBeginMark.data.length := by decide
    omega
  · rw [if_neg hp] at h
    exact absurd h (by simp)

theorem matchTempSection_none_at {l : List Char} (i : Nat)
    (h : ∀ c, (l.drop i).head? = some c → c ≠ '#') :
    matchTempSection (l.drop i) = none := by
  unfold matchTempSection
  by_cases hp : netrcBeginMark.data.isPrefixOf (l.drop i) = true
  · exfalso
    have hh := isPrefixOf_head hp (by decide)
    have hhead : (l.drop i).head? = some '#' := by
      rw [hh]
      decide
    exact h '#' hhead rfl
  · rw [if_neg hp]

/-- `removeTempSections` leaves a `#`-free file unchanged. -/
theorem removeTemp_id (l : String) (h : ∀ c ∈ l.data, c ≠ '#') :
    removeTempSections l = l := by
  have hid : reSubAll matchTempSection [] l.data = l.data := by
    apply reSubAll_id
    intro i
    apply matchTempSection_none_at
    intro c hc
    have hmem : c ∈ l.data.drop i := by
      cases hd : l.data.drop i with
      | nil => rw [hd] at hc; simp at hc
      | cons a as =>
        rw [hd] at hc
        simp only [List.head?_cons, Option.some.injEq] at hc
        simp [hd, hc]
    exact h c (List.mem_of_mem_drop hmem)
  unfold removeTempSections
  rw [hid]

/-- Removing the temp section appended to a `#`-free netrc file restores the
original content exactly. -/
theorem removeTemp_restore (orig tok : String)
    (h1 : ∀ c ∈ orig.data, c ≠ '#') (h2 : ∀ c ∈ tok.data, c ≠ '#') :
    removeTempSections (orig ++ netrcEntry tok) = orig := by
  have hconc : ∀ c ∈ "machine github.com\nlogin x-access-token\npassword ".data,
      c ≠ '#' := by decide
  have hbody : ∀ c ∈ ("machine github.com\nlogin x-access-token\npassword ".data ++
      (tok.data ++ ['\n'])), c ≠ '#' := by
    intro c hc
    rcases List.mem_append.mp hc with hc | hc
    · exact hconc c hc
    · rcases List.mem_append.mp hc with hc | hc
      · exact h2 c hc
      · simp at hc
        simp [hc]
  have hdecomp : (netrcEntry tok).data =
      netrcBeginMark.data ++
        (("machine github.com\nlogin x-access-token\npassword ".data ++
          (tok.data ++ ['\n'])) ++ netrcEndMark.data) := by
    simp [netrcEntry, String.data_append, List.append_assoc]
  have hm : matchTempSection (netrcEntry tok).data = some [] := by
    rw [hdecomp]
    unfold matchTempSection
    rw [if_pos (List.isPrefixOf_iff_prefix.mpr (List.prefix_append _ _))]
    rw [List.drop_left]
    have hthrough := @findFirstFrom_through netrcEndMark.data (by decide)
      ("machine github.com\nlogin x-access-token\npassword ".data ++
        (tok.data ++ ['\n'])) []
      (fun c hc => by
        have hne := hbody c hc
        have hh : netrcEndMark.data.head? = some '#' := by decide
        rw [hh]
        simp [hne])
    rw [List.append_nil] at hthrough
    exact hthrough
  have hA : ∀ i, i < orig.data.length →
      matchTempSection ((orig.data ++ (netrcEntry tok).data).drop i) = none := by
    intro i hi
    apply matchTempSection_none_at
    intro c hc
    have hilt : i < (orig.data ++ (netrcEntry tok).data).length := by
      simp only [List.length_append]
      omega
    rw [List.drop_eq_getElem_cons hilt] at hc
    simp only [List.head?_cons, Option.some.injEq] at hc
    have hel : (orig.data ++ (netrcEntry tok).data)[i] = orig.data[i] :=
      List.getElem_append_left hi
    rw [hel] at hc
    have hmem : orig.data[i] ∈ orig.data := List.getElem_mem hi
    rw [hc] at hmem
    exact h1 c hmem
  have hstr : (orig ++ netrcEntry tok).data = orig.data ++ (netrcEntry tok).data := by
    simp [String.data_append]
  unfold removeTempSections
  rw [hstr, reSubAll_append orig.data (netrcEntry tok).data hA,
    reSubAll_match matchTempSection_shrinks _ _ hm]
  show String.mk (orig.data ++ ([] ++ reSubAll matchTempSection [] [])) = orig
  simp only [List.nil_append]
  show String.mk (orig.data ++ []) = orig
  rw [List.append_nil]

/-- Field computation for `cleanup`: the netrc content after cleanup. -/
theorem cleanup_netrc_content (t : PubState) :
    (cleanup t).netrc_content =
      if t.netrc_modified && t.netrc_exists then
        removeTempSections t.netrc_content
      else t.netrc_content := by
  simp only [cleanup]
  by_cases h : (t.netrc_modified && t.netrc_exists) = true <;>
    simp [h] <;> split <;> simp

/-- Field computation for `cleanup`: when the properties file exists its
content is restored to the checked-in state. -/
theorem cleanup_props_content (t : PubState) (hp : t.props_exists = true) :
    (cleanup t).props_content = t.props_git := by
  simp only [cleanup]
  by_cases h : (t.netrc_modified && t.netrc_exists) = true <;> simp [h, hp]

/-- Claim C4: whatever `publish` does — abort early, die in
`determine_source_repo`, or run to completion — running the registered
`cleanup` handler at process exit leaves the `.netrc` content exactly as it
was before the run and restores `gradle.properties` to its checked-in
content (assuming the pre-existing netrc content and the token are `#`-free,
so that the temp-section markers are unambiguous). -/
theorem publish_cleanup_restores (s : PubState)
    (h1 : ∀ c ∈ s.netrc_content.data, c ≠ '#')
    (h2 : ∀ tok, s.github_token = some tok → ∀ c ∈ tok.data, c ≠ '#') :
    (cleanup (publish s).2).netrc_content = s.netrc_content ∧
    (s.props_exists = true →
      (cleanup (publish s).2).props_content = s.props_git) := by
  have hgen : ∀ t : PubState,
      (t.netrc_content = s.netrc_content ∨
        ∃ tok, s.github_token = some tok ∧ t.netrc_modified = true ∧
          t.netrc_exists = true ∧
          t.netrc_content = s.netrc_content ++ netrcEntry tok) →
      t.props_exists = s.props_exists → t.props_git = s.props_git →
      (cleanup t).netrc_content = s.netrc_content ∧
      (s.props_exists = true → (cleanup t).props_content = s.props_git) := by
    intro t hn hp hg
    constructor
    · rw [cleanup_netrc_content]
      rcases hn with hn | ⟨tok, htok, hm, he, hn⟩
      · by_cases hflag : (t.netrc_modified && t.netrc_exists) = true
        · rw [if_pos hflag, hn, removeTemp_id s.netrc_content h1]
        · rw [if_neg hflag, hn]
      · rw [if_pos (by simp [hm, he]), hn,
          removeTemp_restore s.netrc_content tok h1 (h2 tok htok)]
    · intro hpe
      rw [cleanup_props_content t (by rw [hp]; exact hpe), hg]
  -- control-flow analysis of `publish`
  have hsetup : (setup_netrc s).netrc_content = s.netrc_content ∨
      ∃ tok, s.github_token = some tok ∧ (setup_netrc s).netrc_modified = true ∧
        (setup_netrc s).netrc_exists = true ∧
        (setup_netrc s).netrc_content = s.netrc_content ++ netrcEntry tok := by
    unfold setup_netrc
    cases hci : s.is_ci with
    | false => simp
    | true =>
      cases htok : s.github_token with
      | none => simp
      | some tok =>
        right
        exact ⟨tok, rfl, rfl, rfl, rfl⟩
  have hsetup_pe : (setup_netrc s).props_exists = s.props_exists := by
    unfold setup_netrc
    cases s.is_ci with
    | false => simp
    | true => cases s.github_token <;> simp
  have hsetup_pg : (setup_netrc s).props_git = s.props_git := by
    unfold setup_netrc
    cases s.is_ci with
    | false => simp
    | true => cases s.github_token <;> simp
  have hself : (cleanup s).netrc_content = s.netrc_content ∧
      (s.props_exists = true → (cleanup s).props_content = s.props_git) :=
    hgen s (Or.inl rfl) rfl rfl
  have hs1 : (cleanup (setup_netrc s)).netrc_content = s.netrc_content ∧
      (s.props_exists = true →
        (cleanup (setup_netrc s)).props_content = s.props_git) :=
    hgen (setup_netrc s) hsetup hsetup_pe hsetup_pg
  have hs2 : ∀ v, (cleanup (update_gradle_properties (setup_netrc s) v)).netrc_content =
        s.netrc_content ∧
      (s.props_exists = true →
        (cleanup (update_gradle_properties (setup_netrc s) v)).props_content =
          s.props_git) := by
    intro v
    apply hgen
    · rcases hsetup with hn | ⟨tok, htok, hm, he, hn⟩
      · left
        simpa [update_gradle_properties] using hn
      · right
        exact ⟨tok, htok, by simpa [update_gradle_properties] using hm,
          by simpa [update_gradle_properties] using he,
          by simpa [update_gradle_properties] using hn⟩
    · simpa [update_gradle_properties] using hsetup_pe
    · simpa [update_gradle_properties] using hsetup_pg
  unfold publish
  by_cases hv : (!verify_release_version_matches_branch s) = true
  · simp only [hv, if_true]
    exact hself
  · simp only [hv, Bool.false_eq_true, if_false]
    by_cases hb : (!s.build_ok) = true
    · simp only [hb, if_true]
      exact hself
    · simp only [hb, Bool.false_eq_true, if_false]
      by_cases hcit : (s.is_ci && s.github_token == none) = true
      · simp only [hcit, if_true]
        exact hself
      · simp only [hcit, Bool.false_eq_true, if_false]
        by_cases htop : pyStrip s.git_toplevel = ""
        · simp only [htop, if_pos rfl]
          exact hs1
        · simp only [if_neg htop]
          by_cases hpre : ("release/v".data.isPrefixOf s.branch.data) = true
          · simp only [hpre, if_true]
            exact hs2 _
          · simp only [hpre, Bool.false_eq_true, if_false]
            exact hs1

/-- A CI run state with a token, `#`-free netrc and token contents. -/
def pubCiState : PubState :=
  { branch := "release/v1.2.3", props_exists := true,
    props_content := "viaductVersion=1.2.3", props_git := "viaductVersion=1.2.3",
    build_ok := true, is_ci := true, github_token := some "tok123",
    netrc_exists := true, netrc_content := "machine example.com\n",
    netrc_modified := false, props_written := false, git_toplevel := "/repo",
    copybara_exit := 0 }

/-- Witness for claim C4 on a concrete CI run that appends to `.netrc` and
rewrites `gradle.properties`. -/
theorem publish_cleanup_restores_witness :
    (cleanup (publish pubCiState).2).netrc_content = pubCiState.netrc_content ∧
    (pubCiState.props_exists = true →
      (cleanup (publish pubCiState).2).props_content = pubCiState.props_git) :=
  publish_cleanup_restores pubCiState (by decide) (by
    intro tok htok
    have h : tok = "tok123" := by
      have := htok
      simp [pubCiState] at this
      exact this.symm
    subst h
    decide)

/-! ## Claim C1: metadata trailer stripping -/

theorem dropWhile_eq_drop (p : Char → Bool) :
    ∀ l : List Char, l.dropWhile p = l.drop (l.takeWhile p).length := by
  intro l
  induction l with
  | nil => rfl
  | cons c cs ih =>
    by_cases hc : p c = true
    · rw [List.takeWhile_cons_of_pos hc, List.dropWhile_cons_of_pos hc]
      simpa using ih
    · rw [List.takeWhile_cons_of_neg (by simp [hc]),
        List.dropWhile_cons_of_neg (by simp [hc])]
      simp

theorem length_dropWhile_add (p : Char → Bool) (l : List Char) :
    (l.takeWhile p).length + (l.dropWhile p).length = l.length := by
  conv_rhs => rw [← List.takeWhile_append_dropWhile p l]
  rw [List.length_append]

/-- The metadata-trailer matcher consumes at least one character. -/
theorem matchTrailer_shrinks (lit : List Char) (cls : Char → Bool) :
    MatcherShrinks (matchTrailer lit cls) := by
  intro l r h
  rw [matchTrailer] at h
  by_cases h1 : (l.takeWhile isPySpace).isEmpty
  · rw [if_pos h1] at h
    exact absurd h (by simp)
  · rw [if_neg h1] at h
    cases hml : matchLitCI lit (l.dropWhile isPySpace) with
    | none =>
      rw [hml] at h
      exact absurd h (by simp)
    | some rest2 =>
      rw [hml] at h
      dsimp only at h
      by_cases h2 : (rest2.takeWhile isPySpace).isEmpty
      · rw [if_pos h2] at h
        exact absurd h (by simp)
      · rw [if_neg h2] at h
        by_cases h3 : ((rest2.dropWhile isPySpace).takeWhile cls).isEmpty
        · rw [if_pos h3] at h
          exact absurd h (by simp)
        · rw [if_neg h3] at h
          have hr : r = (rest2.dropWhile isPySpace).dropWhile cls := by
            injection h with h'
            exact h'.symm
          have hws : 1 ≤ (l.takeWhile isPySpace).length := by
            cases hw : l.takeWhile isPySpace with
            | nil => rw [hw] at h1; simp at h1
            | cons x xs => simp [hw]
          have e1 := length_dropWhile_add isPySpace l
          have e2 := matchLitCI_length hml
          have e3 := length_dropWhile_add isPySpace rest2
          have e4 : ((rest2.dropWhile isPySpace).dropWhile cls).length ≤
              (rest2.dropWhile isPySpace).length :=
            (List.dropWhile_sublist cls).length_le
          rw [hr]
          omega

/-- A successful trailer match exhibits a whitespace run followed by a
case-insensitive occurrence of the literal. -/
theorem matchTrailer_some_occurs {lit : List Char} {cls : Char → Bool}
    {l r : List Char} (h : matchTrailer lit cls l = some r) :
    ∃ j, 0 < j ∧ (∀ c ∈ l.take j, isPySpace c = true) ∧
      lit.isPrefixOf ((l.drop j).map Char.toLower) = true := by
  rw [matchTrailer] at h
  by_cases h1 : (l.takeWhile isPySpace).isEmpty
  · rw [if_pos h1] at h
    exact absurd h (by simp)
  · rw [if_neg h1] at h
    cases hml : matchLitCI lit (l.dropWhile isPySpace) with
    | none =>
      rw [hml] at h
      exact absurd h (by simp)
    | some rest2 =>
      refine ⟨(l.takeWhile isPySpace).length, ?_, ?_, ?_⟩
      · cases hw : l.takeWhile isPySpace with
        | nil => rw [hw] at h1; simp at h1
        | cons x xs => simp [hw]
      · intro c hc
        have htp : l.takeWhile isPySpace = l.take (l.takeWhile isPySpace).length :=
          List.prefix_iff_eq_take.mp (List.takeWhile_prefix isPySpace)
        rw [← htp] at hc
        exact List.mem_takeWhile_imp hc
      · rw [← dropWhile_eq_drop]
        exact matchLitCI_isPrefix hml

/-- The executable case-insensitive occurrence test for a (lower-case)
literal. -/
def hasMarkerCI (lit : List Char) (l : List Char) : Bool :=
  (findFirstFrom lit (pyLowerData l)).isSome

theorem hasMarkerCI_false {lit l : List Char} (h : hasMarkerCI lit l = false) :
    ∀ i, ¬ lit.isPrefixOf ((l.drop i).map Char.toLower) = true := by
  intro i hp
  have hn : findFirstFrom lit (pyLowerData l) = none := by
    cases hf : findFirstFrom lit (pyLowerData l) with
    | none => rfl
    | some r => rw [hasMarkerCI, hf] at h; simp at h
  have := findFirstFrom_none hn i
  rw [pyLowerData, ← List.map_drop] at this
  exact this hp

/-- Without a case-insensitive occurrence of the literal there is no trailer
match at any position. -/
theorem matchTrailer_none_of_no_occur {lit : List Char} {cls : Char → Bool}
    {l : List Char}
    (h : ∀ i, ¬ lit.isPrefixOf ((l.drop i).map Char.toLower) = true) :
    ∀ i, matchTrailer lit cls (l.drop i) = none := by
  intro i
  cases hm : matchTrailer lit cls (l.drop i) with
  | none => rfl
  | some r =>
    obtain ⟨j, _, _, hj⟩ := matchTrailer_some_occurs hm
    rw [List.drop_drop] at hj
    exact absurd hj (h (i + j))

/-- A literal prefix of an appended list, short enough to fit in the left
part, is a prefix of the left part. -/
theorem isPrefixOf_append_left {p x y : List Char}
    (h : p.isPrefixOf (x ++ y) = true) (hl : p.length ≤ x.length) :
    p.isPrefixOf x = true := by
  rw [List.isPrefixOf_iff_prefix] at h ⊢
  rw [List.prefix_iff_eq_take] at h ⊢
  rw [h]
  rw [List.take_append_eq_append_take]
  rw [Nat.sub_eq_zero_of_le hl]
  simp

/-- Compute the trailer matcher at the head of a canonical trailer
`␣LIT␣value` followed by `b`. -/
theorem matchTrailer_at_trailer (lit : List Char) (cls : Char → Bool)
    (litsrc : List Char) (hlit : pyLowerData litsrc = lit)
    (hlitne : litsrc ≠ [])
    (hlithead : ∀ c, litsrc.head? = some c → isPySpace c = false)
    (hcls_space : ∀ c, cls c = true → isPySpace c = false)
    (v b : List Char) (hv : v ≠ []) (hvall : ∀ c ∈ v, cls c = true)
    (hb : ∀ c, b.head? = some c → cls c = false) :
    matchTrailer lit cls (' ' :: (litsrc ++ ' ' :: (v ++ b))) = some b := by
  have hlh : ∀ c, (litsrc ++ ' ' :: (v ++ b)).head? = some c → isPySpace c = false := by
    intro c hc
    rw [List.head?_append_of_ne_nil _ hlitne] at hc
    exact hlithead c hc
  have hvh : ∀ c, (v ++ b).head? = some c → isPySpace c = false := by
    intro c hc
    rw [List.head?_append_of_ne_nil _ hv] at hc
    have hcv : c ∈ v := by
      cases hvv : v with
      | nil => exact absurd hvv hv
      | cons x xs =>
        rw [hvv] at hc
        simp only [List.head?_cons, Option.some.injEq] at hc
        simp [hvv, hc.symm]
    exact hcls_space c (hvall c hcv)
  have hws : (' ' :: (litsrc ++ ' ' :: (v ++ b))).takeWhile isPySpace = [' '] := by
    rw [List.takeWhile_cons_of_pos (by decide)]
    rw [takeWhile_head_false hlh]
  have hdw : (' ' :: (litsrc ++ ' ' :: (v ++ b))).dropWhile isPySpace =
      litsrc ++ ' ' :: (v ++ b) := by
    rw [List.dropWhile_cons_of_pos (by decide)]
    exact dropWhile_head_false hlh
  have hlitm : matchLitCI lit (litsrc ++ ' ' :: (v ++ b)) = some (' ' :: (v ++ b)) :=
    matchLitCI_append lit litsrc _ hlit
  have hws2 : (' ' :: (v ++ b)).takeWhile isPySpace = [' '] := by
    rw [List.takeWhile_cons_of_pos (by decide)]
    rw [takeWhile_head_false hvh]
  have hdw2 : (' ' :: (v ++ b)).dropWhile isPySpace = v ++ b := by
    rw [List.dropWhile_cons_of_pos (by decide)]
    exact dropWhile_head_false hvh
  have hval : (v ++ b).takeWhile cls = v := by
    rw [takeWhile_append_all b hvall, takeWhile_head_false hb, List.append_nil]
  have hdv : (v ++ b).dropWhile cls = b := by
    rw [dropWhile_append_all b hvall]
    exact dropWhile_head_false hb
  rw [matchTrailer]
  rw [hws, hdw, hlitm]
  dsimp only
  rw [hws2, hdw2, hval, hdv]
  simp [hv]

/-- No trailer match can start strictly inside the region `a` of
`a ++ tail` when `a` does not end in whitespace, `tail` starts with a plain
space, the literal contains no space, and the literal does not occur
(case-insensitively) in `a ++ b`. -/
theorem matchTrailer_none_in_left (lit : List Char) (cls : Char → Bool)
    (a tail b : List Char)
    (hlitsp : ∀ (k : Fin lit.length), lit.get k ≠ ' ')
    (htail : tail.head? = some ' ')
    (hlast : ∀ c, a.getLast? = some c → isPySpace c = false)
    (hno : ∀ i, ¬ lit.isPrefixOf (((a ++ b).drop i).map Char.toLower) = true) :
    ∀ i, i < a.length → matchTrailer lit cls ((a ++ tail).drop i) = none := by
  intro i hi
  cases hm : matchTrailer lit cls ((a ++ tail).drop i) with
  | none => rfl
  | some r =>
    exfalso
    obtain ⟨j, hj0, hws, hocc⟩ := matchTrailer_some_occurs hm
    rw [List.drop_drop] at hocc
    set p := i + j with hp
    have hilen : i < (a ++ tail).length := by
      rw [List.length_append]
      omega
    have hpa : p < a.length := by
      by_contra hge
      push_neg at hge
      -- the whitespace run would cover the last character of `a`
      have hk : a.length - 1 - i < j := by omega
      have hkin : a.length - 1 - i < (((a ++ tail).drop i).take j).length := by
        rw [List.length_take, List.length_drop, List.length_append]
        omega
      have hkin2 : a.length - 1 - i < ((a ++ tail).drop i).length := by
        rw [List.length_drop, List.length_append]
        omega
      have hb2 : i + (a.length - 1 - i) < (a ++ tail).length := by
        rw [List.length_append]
        omega
      have hlt : a.length - 1 < a.length := by omega
      have hb3 : a.length - 1 < (a ++ tail).length := by
        rw [List.length_append]
        omega
      have hel : (((a ++ tail).drop i).take j)[a.length - 1 - i] =
          ((a ++ tail).drop i)[a.length - 1 - i] := by
        rw [List.getElem_take]
      have hel2 : ((a ++ tail).drop i)[a.length - 1 - i] =
          (a ++ tail)[i + (a.length - 1 - i)] := by
        rw [List.getElem_drop]
      have hidx : i + (a.length - 1 - i) = a.length - 1 := by omega
      have hel3 : (a ++ tail)[a.length - 1] = a[a.length - 1] :=
        List.getElem_append_left hlt
      have hlastmem : isPySpace (a[a.length - 1]) = true := by
        have hmem : (((a ++ tail).drop i).take j)[a.length - 1 - i] ∈
            ((a ++ tail).drop i).take j := List.getElem_mem hkin
        have := hws _ hmem
        rw [hel, hel2] at this
        simp only [hidx] at this
        rw [hel3] at this
        exact this
      have hgl : a.getLast? = some (a[a.length - 1]) := by
        rw [List.getLast?_eq_getElem?]
        exact List.getElem?_eq_getElem hlt
      have := hlast _ hgl
      rw [hlastmem] at this
      exact Bool.true_eq_false.mp this
    -- the occurrence is at position `p < a.length`
    have hdropsplit : (a ++ tail).drop p = a.drop p ++ tail :=
      List.drop_append_of_le_length (le_of_lt hpa)
    rw [hdropsplit, List.map_append] at hocc
    by_cases hfit : lit.length ≤ a.length - p
    · -- occurrence entirely inside `a`: contradicts `hno`
      have hocc2 : lit.isPrefixOf ((a.drop p).map Char.toLower) = true :=
        isPrefixOf_append_left hocc (by
          rw [List.length_map, List.length_drop]
          omega)
      have hsplit2 : (a ++ b).drop p = a.drop p ++ b :=
        List.drop_append_of_le_length (le_of_lt hpa)
      have hocc3 : lit.isPrefixOf (((a ++ b).drop p).map Char.toLower) = true := by
        rw [hsplit2, List.map_append, List.isPrefixOf_iff_prefix]
        exact (List.isPrefixOf_iff_prefix.mp hocc2).trans (List.prefix_append _ _)
      exact hno p hocc3
    · -- the literal would have to contain the space at the start of `tail`
      push_neg at hfit
      set k := a.length - p with hk
      have hkl : k < lit.length := hfit
      obtain ⟨t, ht⟩ := List.isPrefixOf_iff_prefix.mp hocc
      have hklen : ((a.drop p).map Char.toLower).length = k := by
        rw [List.length_map, List.length_drop]
      have hleft : ((a.drop p).map Char.toLower ++ tail.map Char.toLower)[k]? =
          (tail.map Char.toLower)[0]? := by
        rw [List.getElem?_append_right (le_of_eq hklen)]
        rw [hklen]
        simp
      have htail0 : (tail.map Char.toLower)[0]? = some ' ' := by
        cases tail with
        | nil => simp at htail
        | cons c cs =>
          simp only [List.head?_cons, Option.some.injEq] at htail
          rw [htail]
          have h5 : Char.toLower ' ' = ' ' := by decide
          simp [h5]
      have hright : (lit ++ t)[k]? = some (lit.get ⟨k, hkl⟩) := by
        rw [List.getElem?_append_left hkl]
        rw [List.getElem?_eq_getElem hkl]
        rfl
      have hchain : some (lit.get ⟨k, hkl⟩) = some ' ' := by
        rw [← hright, ht, hleft, htail0]
      have h2 : lit.get ⟨k, hkl⟩ = ' ' := by
        injection hchain
      exact hlitsp ⟨k, hkl⟩ h2

theorem data_ne_nil {s : String} (h : s ≠ "") : s.data ≠ [] := by
  cases s with
  | mk d =>
    intro hd
    have hd' : d = [] := hd
    subst hd'
    exact h rfl

/-- Claim C1 counterexample: both metadata patterns require at least one
whitespace character before the literal, so a metadata trailer at the very
start of the commit message is not removed by `clean_commit_message`. -/
theorem clean_commit_message_start_counterexample :
    clean_commit_message "Github-Change-Id: Iabc123" = "Github-Change-Id: Iabc123" ∧
    clean_commit_message "GitOrigin-RevId: 9fa3c21" = "GitOrigin-RevId: 9fa3c21" := by
  exact ⟨by decide, by decide⟩

/-- Claim C1 as amended: `clean_commit_message` removes every metadata
trailer occurrence that is immediately preceded by whitespace, together with
that whitespace — each `Github-Change-Id: <value>` and each
`GitOrigin-RevId: <value>`, including when both trailers occur in the same
message, adjacent or separated by further text — and leaves a message without
metadata markers (in particular its `Closes #N` / `Fixes #N` references)
unchanged apart from the final whitespace strip.  A trailer at the very start
of the message, not preceded by any whitespace, is not removed (see the
counterexample), because both patterns in `METADATA_PATTERNS` begin with
`\s+`.  The hypotheses only pin the inserted trailers as the marker
occurrences of the message and keep the value runs maximal. -/
theorem clean_commit_message_amended (a v m w b : String)
    (hv1 : v ≠ "") (hv2 : ∀ c ∈ v.data, isPyWord c = true)
    (hw1 : w ≠ "") (hw2 : ∀ c ∈ w.data, isHexCI c = true)
    (ha : a.data.getLast?.all (fun c => !isPySpace c) = true)
    (ham : (a ++ m).data.getLast?.all (fun c => !isPySpace c) = true)
    (hbw : b.data.head?.all (fun c => !isPyWord c) = true)
    (hbh : b.data.head?.all (fun c => !isHexCI c) = true)
    (hmv : (m ++ " GitOrigin-RevId: " ++ w ++ b).data.head?.all
      (fun c => !isPyWord c) = true)
    (hm1 : hasMarkerCI changeIdLit (a.data ++ b.data) = false)
    (hm2 : hasMarkerCI revIdLit (a.data ++ b.data) = false)
    (hm3 : hasMarkerCI changeIdLit (a ++ " GitOrigin-RevId: " ++ w ++ b).data = false)
    (hm4a : hasMarkerCI changeIdLit (a ++ m ++ b).data = false)
    (hm4b : hasMarkerCI revIdLit (a ++ m ++ b).data = false)
    (hm4c : hasMarkerCI changeIdLit
      (m ++ " GitOrigin-RevId: " ++ w ++ b).data = false) :
    clean_commit_message
        (a ++ " Github-Change-Id: " ++ v ++ m ++ " GitOrigin-RevId: " ++ w ++ b) =
      clean_commit_message (a ++ m ++ b) ∧
    clean_commit_message (a ++ " Github-Change-Id: " ++ v ++ b) =
      clean_commit_message (a ++ b) ∧
    clean_commit_message (a ++ " GitOrigin-RevId: " ++ w ++ b) =
      clean_commit_message (a ++ b) ∧
    clean_commit_message (a ++ b) = pyStrip (a ++ b) := by
  have hvd : v.data ≠ [] := data_ne_nil hv1
  have hwd : w.data ≠ [] := data_ne_nil hw1
  have ha' : ∀ c, a.data.getLast? = some c → isPySpace c = false := by
    intro c hc
    rw [hc] at ha
    simpa using ha
  have hbw' : ∀ c, b.data.head? = some c → isPyWord c = false := by
    intro c hc
    rw [hc] at hbw
    simpa using hbw
  have hbh' : ∀ c, b.data.head? = some c → isHexCI c = false := by
    intro c hc
    rw [hc] at hbh
    simpa using hbh
  have hno1 := hasMarkerCI_false hm1
  have hno2 := hasMarkerCI_false hm2
  have hno3 := hasMarkerCI_false hm3
  have hid1 : reSubAll metaMatcher1 [] (a.data ++ b.data) = a.data ++ b.data :=
    reSubAll_id _ (fun i => matchTrailer_none_of_no_occur hno1 i)
  have hid2 : reSubAll metaMatcher2 [] (a.data ++ b.data) = a.data ++ b.data :=
    reSubAll_id _ (fun i => matchTrailer_none_of_no_occur hno2 i)
  have hnob1 : ∀ i, ¬ changeIdLit.isPrefixOf ((b.data.drop i).map Char.toLower) = true := by
    intro i hp
    have h := hno1 (a.data.length + i)
    rw [List.drop_append] at h
    exact h hp
  have hnob2 : ∀ i, ¬ revIdLit.isPrefixOf ((b.data.drop i).map Char.toLower) = true := by
    intro i hp
    have h := hno2 (a.data.length + i)
    rw [List.drop_append] at h
    exact h hp
  -- the first pattern removed from the inserted change-id trailer
  have hM1 : (a ++ " Github-Change-Id: " ++ v ++ b).data =
      a.data ++ (" Github-Change-Id: ".data ++ (v.data ++ b.data)) := by
    simp [List.append_assoc]
  have hT1 : " Github-Change-Id: ".data ++ (v.data ++ b.data) =
      ' ' :: ("Github-Change-Id:".data ++ ' ' :: (v.data ++ b.data)) := by
    have hx : " Github-Change-Id: ".data =
        ' ' :: ("Github-Change-Id:".data ++ [' ']) := by decide
    rw [hx]
    simp [List.append_assoc]
  have hmatch1 : metaMatcher1 (" Github-Change-Id: ".data ++ (v.data ++ b.data)) =
      some b.data := by
    rw [hT1]
    exact matchTrailer_at_trailer changeIdLit isPyWord "Github-Change-Id:".data
      (by decide) (by decide)
      (fun c hc => by
        rw [show ("Github-Change-Id:".data).head? = some 'G' from rfl] at hc
        injection hc with h
        subst h
        decide)
      (fun c hcc => isPySpace_not_word hcc)
      v.data b.data hvd hv2 hbw'
  have hleft1 : ∀ i, i < a.data.length →
      metaMatcher1 ((a.data ++ (" Github-Change-Id: ".data ++ (v.data ++ b.data))).drop i) =
        none :=
    matchTrailer_none_in_left changeIdLit isPyWord a.data _ b.data
      (by decide)
      (by rw [hT1]; rfl)
      ha' hno1
  have hpass1 : reSubAll metaMatcher1 [] (a ++ " Github-Change-Id: " ++ v ++ b).data =
      a.data ++ b.data := by
    rw [hM1]
    rw [reSubAll_append _ _ hleft1]
    rw [reSubAll_match (show MatcherShrinks metaMatcher1 from
      matchTrailer_shrinks changeIdLit isPyWord) _ _ hmatch1]
    rw [show reSubAll metaMatcher1 [] b.data = b.data from
      reSubAll_id _ (fun i => matchTrailer_none_of_no_occur hnob1 i)]
    simp
  -- the second pattern removed from the inserted rev-id trailer
  have hM2 : (a ++ " GitOrigin-RevId: " ++ w ++ b).data =
      a.data ++ (" GitOrigin-RevId: ".data ++ (w.data ++ b.data)) := by
    simp [List.append_assoc]
  have hT2 : " GitOrigin-RevId: ".data ++ (w.data ++ b.data) =
      ' ' :: ("GitOrigin-RevId:".data ++ ' ' :: (w.data ++ b.data)) := by
    have hx : " GitOrigin-RevId: ".data =
        ' ' :: ("GitOrigin-RevId:".data ++ [' ']) := by decide
    rw [hx]
    simp [List.append_assoc]
  have hmatch2 : metaMatcher2 (" GitOrigin-RevId: ".data ++ (w.data ++ b.data)) =
      some b.data := by
    rw [hT2]
    exact matchTrailer_at_trailer revIdLit isHexCI "GitOrigin-RevId:".data
      (by decide) (by decide)
      (fun c hc => by
        rw [show ("GitOrigin-RevId:".data).head? = some 'G' from rfl] at hc
        injection hc with h
        subst h
        decide)
      (fun c hcc => isPySpace_not_hex hcc)
      w.data b.data hwd hw2 hbh'
  have hleft2 : ∀ i, i < a.data.length →
      metaMatcher2 ((a.data ++ (" GitOrigin-RevId: ".data ++ (w.data ++ b.data))).drop i) =
        none :=
    matchTrailer_none_in_left revIdLit isHexCI a.data _ b.data
      (by decide)
      (by rw [hT2]; rfl)
      ha' hno2
  have hpass1' : reSubAll metaMatcher1 [] (a ++ " GitOrigin-RevId: " ++ w ++ b).data =
      (a ++ " GitOrigin-RevId: " ++ w ++ b).data :=
    reSubAll_id _ (fun i => matchTrailer_none_of_no_occur hno3 i)
  have hpass2 : reSubAll metaMatcher2 [] (a ++ " GitOrigin-RevId: " ++ w ++ b).data =
      a.data ++ b.data := by
    rw [hM2]
    rw [reSubAll_append _ _ hleft2]
    rw [reSubAll_match (show MatcherShrinks metaMatcher2 from
      matchTrailer_shrinks revIdLit isHexCI) _ _ hmatch2]
    rw [show reSubAll metaMatcher2 [] b.data = b.data from
      reSubAll_id _ (fun i => matchTrailer_none_of_no_occur hnob2 i)]
    simp
  -- both trailers in one message: the first pass removes the change-id
  -- trailer, the second pass removes the rev-id trailer
  have eR1 : (m ++ " GitOrigin-RevId: " ++ w ++ b).data =
      m.data ++ (" GitOrigin-RevId: ".data ++ (w.data ++ b.data)) := by
    simp [List.append_assoc]
  have hbR1 : ∀ c,
      (m.data ++ (" GitOrigin-RevId: ".data ++ (w.data ++ b.data))).head? = some c →
      isPyWord c = false := by
    intro c hc
    rw [← eR1] at hc
    rw [hc] at hmv
    simpa using hmv
  have hno4a := hasMarkerCI_false hm4a
  have hno4b := hasMarkerCI_false hm4b
  have hno4c := hasMarkerCI_false hm4c
  rw [eR1] at hno4c
  have e4a : (a ++ m ++ b).data = a.data ++ (m.data ++ b.data) := by
    simp [List.append_assoc]
  have e4b : (a ++ m ++ b).data = (a.data ++ m.data) ++ b.data := by
    rw [String.data_append, String.data_append]
  have hno4a' := hno4a
  rw [e4a] at hno4a'
  have hno4b' := hno4b
  rw [e4b] at hno4b'
  have ham' : ∀ c, (a.data ++ m.data).getLast? = some c → isPySpace c = false := by
    intro c hc
    rw [← String.data_append] at hc
    rw [hc] at ham
    simpa using ham
  have hM4 : (a ++ " Github-Change-Id: " ++ v ++ m ++ " GitOrigin-RevId: " ++ w ++ b).data =
      a.data ++ (" Github-Change-Id: ".data ++
        (v.data ++ (m.data ++ (" GitOrigin-RevId: ".data ++ (w.data ++ b.data))))) := by
    simp [List.append_assoc]
  have hT4 : " Github-Change-Id: ".data ++
      (v.data ++ (m.data ++ (" GitOrigin-RevId: ".data ++ (w.data ++ b.data)))) =
      ' ' :: ("Github-Change-Id:".data ++
        ' ' :: (v.data ++ (m.data ++ (" GitOrigin-RevId: ".data ++ (w.data ++ b.data))))) := by
    have hx : " Github-Change-Id: ".data =
        ' ' :: ("Github-Change-Id:".data ++ [' ']) := by decide
    rw [hx]
    simp [List.append_assoc]
  have hmatch4 : metaMatcher1 (" Github-Change-Id: ".data ++
      (v.data ++ (m.data ++ (" GitOrigin-RevId: ".data ++ (w.data ++ b.data))))) =
      some (m.data ++ (" GitOrigin-RevId: ".data ++ (w.data ++ b.data))) := by
    rw [hT4]
    exact matchTrailer_at_trailer changeIdLit isPyWord "Github-Change-Id:".data
      (by decide) (by decide)
      (fun c hc => by
        rw [show ("Github-Change-Id:".data).head? = some 'G' from rfl] at hc
        injection hc with h
        subst h
        decide)
      (fun c hcc => isPySpace_not_word hcc)
      v.data (m.data ++ (" GitOrigin-RevId: ".data ++ (w.data ++ b.data)))
      hvd hv2 hbR1
  have hleft4 : ∀ i, i < a.data.length →
      metaMatcher1 ((a.data ++ (" Github-Change-Id: ".data ++
        (v.data ++ (m.data ++ (" GitOrigin-RevId: ".data ++ (w.data ++ b.data)))))).drop i) =
        none :=
    matchTrailer_none_in_left changeIdLit isPyWord a.data _ (m.data ++ b.data)
      (by decide)
      (by rw [hT4]; rfl)
      ha' hno4a'
  have hpass41 : reSubAll metaMatcher1 []
      (a ++ " Github-Change-Id: " ++ v ++ m ++ " GitOrigin-RevId: " ++ w ++ b).data =
      a.data ++ (m.data ++ (" GitOrigin-RevId: ".data ++ (w.data ++ b.data))) := by
    rw [hM4]
    rw [reSubAll_append _ _ hleft4]
    rw [reSubAll_match (show MatcherShrinks metaMatcher1 from
      matchTrailer_shrinks changeIdLit isPyWord) _ _ hmatch4]
    rw [show reSubAll metaMatcher1 []
        (m.data ++ (" GitOrigin-RevId: ".data ++ (w.data ++ b.data))) =
        m.data ++ (" GitOrigin-RevId: ".data ++ (w.data ++ b.data)) from
      reSubAll_id _ (fun i => matchTrailer_none_of_no_occur hno4c i)]
    simp
  have hleft4b : ∀ i, i < (a.data ++ m.data).length →
      metaMatcher2 (((a.data ++ m.data) ++
        (" GitOrigin-RevId: ".data ++ (w.data ++ b.data))).drop i) = none :=
    matchTrailer_none_in_left revIdLit isHexCI (a.data ++ m.data) _ b.data
      (by decide)
      (by rw [hT2]; rfl)
      ham' hno4b'
  have hpass42 : reSubAll metaMatcher2 []
      (a.data ++ (m.data ++ (" GitOrigin-RevId: ".data ++ (w.data ++ b.data)))) =
      (a.data ++ m.data) ++ b.data := by
    rw [show a.data ++ (m.data ++ (" GitOrigin-RevId: ".data ++ (w.data ++ b.data))) =
        (a.data ++ m.data) ++ (" GitOrigin-RevId: ".data ++ (w.data ++ b.data)) from
      (List.append_assoc _ _ _).symm]
    rw [reSubAll_append _ _ hleft4b]
    rw [reSubAll_match (show MatcherShrinks metaMatcher2 from
      matchTrailer_shrinks revIdLit isHexCI) _ _ hmatch2]
    rw [show reSubAll metaMatcher2 [] b.data = b.data from
      reSubAll_id _ (fun i => matchTrailer_none_of_no_occur hnob2 i)]
    simp
  have hid4a : reSubAll metaMatcher1 [] (a ++ m ++ b).data = (a ++ m ++ b).data :=
    reSubAll_id _ (fun i => matchTrailer_none_of_no_occur hno4a i)
  have hid4b : reSubAll metaMatcher2 [] (a ++ m ++ b).data = (a ++ m ++ b).data :=
    reSubAll_id _ (fun i => matchTrailer_none_of_no_occur hno4b i)
  refine ⟨?_, ?_, ?_, ?_⟩
  · unfold clean_commit_message
    rw [hpass41, hpass42]
    rw [hid4a, hid4b, e4b]
  · unfold clean_commit_message
    rw [hpass1]
    rw [String.data_append, hid1, hid2]
  · unfold clean_commit_message
    rw [hpass1', hpass2]
    rw [String.data_append, hid1, hid2]
  · unfold clean_commit_message pyStrip
    rw [String.data_append, hid1, hid2]

/-- Witness for the amended claim C1: a realistic message carrying both
trailers (adjacent), plus each trailer alone, with `Closes #42` preserved. -/
theorem clean_commit_message_amended_witness :
    clean_commit_message
        ("feat: add x" ++ " Github-Change-Id: " ++ "Iabc123" ++ "" ++
          " GitOrigin-RevId: " ++ "9fa3c2" ++ "\n\nCloses #42") =
      clean_commit_message ("feat: add x" ++ "" ++ "\n\nCloses #42") ∧
    clean_commit_message
        ("feat: add x" ++ " Github-Change-Id: " ++ "Iabc123" ++ "\n\nCloses #42") =
      clean_commit_message ("feat: add x" ++ "\n\nCloses #42") ∧
    clean_commit_message
        ("feat: add x" ++ " GitOrigin-RevId: " ++ "9fa3c2" ++ "\n\nCloses #42") =
      clean_commit_message ("feat: add x" ++ "\n\nCloses #42") ∧
    clean_commit_message ("feat: add x" ++ "\n\nCloses #42") =
      pyStrip ("feat: add x" ++ "\n\nCloses #42") :=
  clean_commit_message_amended "feat: add x" "Iabc123" "" "9fa3c2" "\n\nCloses #42"
    (by decide) (by decide) (by decide) (by decide) (by decide) (by decide)
    (by decide) (by decide) (by decide) (by decide) (by decide) (by decide)
    (by decide) (by decide) (by decide)
